import Mathlib

/-!
Verification of the hord (ordhook) Bitcoin metaprotocol indexer.

Shallow embedding of the data model and the operations of the repository:
block identifiers, the satpoint-after-transfer computation, the inscription
sequencer (unbound queue, reinscriptions, charms), the download-pipeline
dispatcher, the BRC-20 block indexer, the ZMQ run loop and the observer
command handler, together with theorems about their behaviour.

Functions whose source file is not part of the repository snapshot
(for example the sequence cursor and the fork scratch pad) are modelled
from the specification and carry a doc comment saying so.
-/

set_option maxRecDepth 10000

namespace Hord

/-! ## Block identifiers (chainhook-types-rs/src/rosetta.rs) -/

/-- `BlockIdentifier`: a block height (`index`) and a hash string. -/
structure BlockIdentifier where
  index : Nat
  hash : String
  deriving Repr, DecidableEq

/-- Total-order comparison on `Nat`, the embedding of Rust `u64::cmp`. -/
def natCmp (a b : Nat) : Ordering :=
  if a < b then .lt else if a = b then .eq else .gt

/-- Total-order comparison on `String`, the embedding of Rust `String::cmp`
(byte-lexicographic, which agrees with character-lexicographic on the ASCII
hex strings used for hashes). -/
def strCmp (a b : String) : Ordering :=
  if a < b then .lt else if a = b then .eq else .gt

/-- Embedding of `impl PartialEq for BlockIdentifier`: equality is defined
by the hash alone, the height is ignored. -/
def blockIdEq (a b : BlockIdentifier) : Bool :=
  a.hash == b.hash

/-- Embedding of `impl Ord for BlockIdentifier`:
`(other.index, &other.hash).cmp(&(self.index, &self.hash))`, i.e. the pair
comparison with the arguments swapped (descending order). -/
def blockIdCmp (a b : BlockIdentifier) : Ordering :=
  match natCmp b.index a.index with
  | .eq => strCmp b.hash a.hash
  | o => o

/-- Embedding of `impl PartialOrd for BlockIdentifier`:
`Some(other.cmp(self))`, i.e. `blockIdCmp` with the arguments swapped again. -/
def blockIdPcmp (a b : BlockIdentifier) : Option Ordering :=
  some (blockIdCmp b a)

/-! ## BRC-20 Postgres insert statements (brc20/brc20_pg.rs) -/

/-- A BRC-20 operation row (`DbOperation`), with the fields pushed as SQL
parameters by `insert_operations`. -/
structure DbOperation where
  ticker : String
  operation : String
  inscription_id : String
  ordinal_number : Nat
  block_height : Nat
  block_hash : String
  tx_id : String
  tx_index : Nat
  output : String
  «offset» : Nat
  timestamp : Nat
  address : String
  to_address : Option String
  amount : Nat
  deriving Repr, DecidableEq

/-- An SQL parameter value (string or numeric), as bound by the Rust driver. -/
inductive SqlParam where
  | str (s : String)
  | optStr (s : Option String)
  | num (n : Nat)
  deriving Repr, DecidableEq

/-- Embedding of `chunk_insert_values_param_str(rows, columns)`: the
placeholder numbers generated for each row tuple.  `arg_num` starts at 1 and
advances by `columns` per row; row `r` uses placeholders
`arg_num + 0, …, arg_num + columns - 1`. -/
def chunk_insert_values_params (rows columns : Nat) : List (List Nat) :=
  (List.range rows).map (fun row => (List.range columns).map (fun i => row * columns + i + 1))

/-- The column list named by the `INSERT INTO operations (…)` statement
built by `insert_operations`. -/
def insert_operations_columns : List String :=
  ["ticker", "operation", "inscription_id", "ordinal_number", "block_height",
   "block_hash", "tx_id", "tx_index", "output", "offset", "timestamp",
   "address", "to_address", "avail_balance", "trans_balance"]

/-- The parameters pushed per row by `insert_operations` (in push order). -/
def insert_operations_row_params (row : DbOperation) : List SqlParam :=
  [.str row.ticker, .str row.operation, .str row.inscription_id,
   .num row.ordinal_number, .num row.block_height, .str row.block_hash,
   .str row.tx_id, .num row.tx_index, .str row.output, .num row.offset,
   .num row.timestamp, .str row.address, .optStr row.to_address,
   .num row.amount]

/-- The placeholder-count argument passed by `insert_operations` to
`chunk_insert_values_param_str`. -/
def insert_operations_param_count : Nat := 14

/-- `Vec::chunks(500)`: splits a list into consecutive chunks of at most 500
elements (every chunk of a non-empty list is non-empty). -/
def chunks500 {α : Type} : List α → List (List α)
  | [] => []
  | a :: rest => ((a :: rest).take 500) :: chunks500 (rest.drop 499)
termination_by l => l.length
decreasing_by
  simp only [List.length_drop, List.length_cons]
  omega

/-- The pieces of one multi-row `INSERT` statement: the named target columns,
the `$n` placeholder tuples, and the bound values per row. -/
structure InsertStmt where
  columns : List String
  placeholder_rows : List (List Nat)
  value_rows : List (List SqlParam)

/-- The statement `insert_operations` builds for one chunk. -/
def insert_operations_stmt (chunk : List DbOperation) : InsertStmt :=
  { columns := insert_operations_columns,
    placeholder_rows := chunk_insert_values_params chunk.length insert_operations_param_count,
    value_rows := chunk.map insert_operations_row_params }

/-- The statements `insert_operations` executes for a list of rows (one per
500-row chunk). -/
def insert_operations_statements (ops : List DbOperation) : List InsertStmt :=
  (chunks500 ops).map insert_operations_stmt

/-- A multi-row `INSERT` statement can only succeed when every placeholder
tuple and every bound row has exactly as many entries as there are named
target columns. -/
def InsertStmt.well_formed (s : InsertStmt) : Prop :=
  (∀ r ∈ s.placeholder_rows, r.length = s.columns.length) ∧
  (∀ r ∈ s.value_rows, r.length = s.columns.length)

/-! ## Observer command handler (chainhook-sdk/src/observer/mod.rs) -/

/-- A standardized Bitcoin block, reduced to the fields the observer block
cache keys on. -/
structure CachedBlock where
  hash : String
  height : Nat
  deriving Repr, DecidableEq

/-- `max_attempts` in the `ProcessBitcoinBlock` handler. -/
def observer_max_attempts : Nat := 10

/-- The retry loop of the `ProcessBitcoinBlock` handler.  `std k` is the
outcome of the `k`-th standardization attempt (re-fetching between failed
attempts is folded into the oracle `std`).  `attempts` failures have happened
so far; the loop breaks with `none` when `attempts` exceeds
`observer_max_attempts`. -/
def processBlockAttemptsGo (std : Nat → Option CachedBlock) :
    Nat → Nat → Option CachedBlock
  | _, 0 => none
  | attempts, fuel + 1 =>
    match std attempts with
    | some b => some b
    | none =>
      if attempts + 1 > observer_max_attempts then none
      else processBlockAttemptsGo std (attempts + 1) fuel

/-- The `ProcessBitcoinBlock` standardization loop: attempt 0 is the block
delivered with the command, attempts 1..10 are the re-fetch/re-decode
retries. -/
def processBlockAttempts (std : Nat → Option CachedBlock) : Option CachedBlock :=
  processBlockAttemptsGo std 0 (observer_max_attempts + 2)

/-- An observer command, reduced to the cases the handler run loop
distinguishes for block processing. -/
inductive ObserverCommand where
  | processBitcoinBlock (std : Nat → Option CachedBlock)
  | terminate

/-- The observer block cache (`bitcoin_block_store`), keyed by block hash. -/
abbrev BlockStore := List (String × CachedBlock)

/-- `HashMap::insert` on the block store. -/
def BlockStore.insert (s : BlockStore) (b : CachedBlock) : BlockStore :=
  (b.hash, b) :: s.filter (fun p => p.1 ≠ b.hash)

/-- The observer command run loop: processes commands in order; a block that
still fails after the retry budget breaks the loop (remaining commands are
not handled).  Returns the final store and `true` when the loop ran to
completion of the command list. -/
def observerRun : List ObserverCommand → BlockStore → BlockStore × Bool
  | [], store => (store, true)
  | .terminate :: _, store => (store, true)
  | .processBitcoinBlock std :: rest, store =>
    match processBlockAttempts std with
    | some b => observerRun rest (store.insert b)
    | none => (store, false)

/-! ## Download pipeline dispatcher (core/pipeline/mod.rs) -/

/-- A standardized block (`BitcoinBlockData`), reduced to its height. -/
structure StdBlock where
  height : Nat
  deriving Repr, DecidableEq

/-- A message from a block-compression worker to the dispatcher:
`(block_height, Option<standardized block>, compacted block)`.  The compact
payload is abstracted to a `Nat`. -/
structure PipelineMsg where
  height : Nat
  std : Option StdBlock
  compact : Nat
  deriving Repr, DecidableEq

/-- The compression-worker decision: a block is standardized exactly when its
height is at or above `start_sequencing_blocks_at_height`. -/
def workerMessage (start_sequencing height compact : Nat) : PipelineMsg :=
  { height := height,
    std := if start_sequencing ≤ height then some { height := height } else none,
    compact := compact }

/-- A message produced by a compression worker for the given threshold. -/
def PipelineMsg.fromWorker (start_sequencing : Nat) (m : PipelineMsg) : Prop :=
  m.std = if start_sequencing ≤ m.height then some { height := m.height } else none

/-- All messages still in the dispatcher channel come from workers. -/
def QueueWf (start_sequencing : Nat) (q : List (Option PipelineMsg)) : Prop :=
  ∀ m : PipelineMsg, some m ∈ q → m.fromWorker start_sequencing

/-- A `PostProcessorCommand`. -/
inductive PipelineCommand where
  | processBlocks (compacted : List (Nat × Nat)) (blocks : List StdBlock)
  | terminate
  deriving Repr, DecidableEq

/-- The dispatcher's "dequeue all the blocks available" loop: pulls messages
until the channel is empty, a `None` sentinel arrives, or 10,000 messages
have been dequeued in this batch. -/
def dequeueBatchGo : List (Option PipelineMsg) → List PipelineMsg →
    List PipelineMsg × List (Option PipelineMsg)
  | [], acc => (acc.reverse, [])
  | none :: rest, acc => (acc.reverse, rest)
  | some m :: rest, acc =>
    if 10000 ≤ acc.length + 1 then ((m :: acc).reverse, rest)
    else dequeueBatchGo rest (m :: acc)

def dequeueBatch (q : List (Option PipelineMsg)) :
    List PipelineMsg × List (Option PipelineMsg) :=
  dequeueBatchGo q []

/-- The dispatcher's height-keyed buffer (`inbox`), an association list
standing for the `HashMap<u64, (BitcoinBlockData, Vec<u8>)>`. -/
abbrev Inbox := List (Nat × StdBlock × Nat)

/-- `HashMap::insert` on the inbox. -/
def Inbox.insert (ib : Inbox) (h : Nat) (b : StdBlock) (c : Nat) : Inbox :=
  (h, b, c) :: List.filter (fun e => decide (e.1 ≠ h)) ib

/-- `HashMap::remove` on the inbox: the stored entry and the map without it. -/
def Inbox.remove (ib : Inbox) (h : Nat) : Option ((StdBlock × Nat) × Inbox) :=
  (List.find? (fun e => e.1 == h) ib).map
    (fun e => (e.2, List.filter (fun x => decide (x.1 ≠ h)) ib))

/-- Inbox well-formedness: every stored standardized block records the height
it is keyed by, and only blocks at or above the sequencing threshold are ever
buffered (below-threshold blocks are never standardized). -/
def Inbox.wf (start_sequencing : Nat) (ib : Inbox) : Prop :=
  ∀ e ∈ ib, (e.2.1 : StdBlock).height = e.1 ∧ start_sequencing ≤ e.1

/-- The dispatcher's "in order processing" loop: pop the inbox at the cursor,
then cursor + 1, … collecting the compacted pairs and the standardized
blocks in order, until a height is missing. -/
def drainInboxGo : Nat → Inbox → Nat →
    List (Nat × Nat) × List StdBlock × Inbox × Nat
  | 0, ib, c => ([], [], ib, c)
  | fuel + 1, ib, c =>
    match ib.remove c with
    | some ((b, cc), ib2) =>
      let r := drainInboxGo fuel ib2 (c + 1)
      ((c, cc) :: r.1, b :: r.2.1, r.2.2.1, r.2.2.2)
    | none => ([], [], ib, c)

def drainInbox (ib : Inbox) (c : Nat) :
    List (Nat × Nat) × List StdBlock × Inbox × Nat :=
  drainInboxGo ib.length ib c

/-- The dispatcher cursor is initialized to
`start_sequencing_blocks_at_height.max(start_block)`. -/
def dispatcherInitCursor (start_sequencing start_block : Nat) : Nat :=
  Nat.max start_sequencing start_block

/-- The dispatcher's mutable state: the height-keyed buffer, the in-order
cursor, the processed-blocks counter and the stop flag. -/
structure DispatcherState where
  inbox : Inbox
  cursor : Nat
  processed : Nat
  stop : Bool

/-- The "in order processing" tail of a dispatcher iteration: if the inbox
is non-empty, drain the longest run of known heights starting at the cursor
and append one `ProcessBlocks` command carrying them; stop the run loop once
the cursor has passed `end_block`. -/
def dispatcherEmitInOrder (end_block : Nat) (cmds1 : List PipelineCommand)
    (s2 : DispatcherState) : List PipelineCommand × DispatcherState :=
  if s2.inbox.isEmpty then (cmds1, s2)
  else
    let dr := drainInbox s2.inbox s2.cursor
    let s3 : DispatcherState :=
      { inbox := dr.2.2.1, cursor := dr.2.2.2,
        processed := s2.processed + dr.2.1.length, stop := s2.stop }
    let cmds2 :=
      if dr.2.1.isEmpty then cmds1
      else cmds1 ++ [PipelineCommand.processBlocks dr.1 dr.2.1]
    let s4 := if end_block < s3.cursor then { s3 with stop := true } else s3
    (cmds2, s4)

/-- Handling of one dequeued batch: mark the stop flag when all blocks are
processed; buffer standardized blocks into the inbox; emit out-of-order
compact-only blocks in a separate `ProcessBlocks` command with an empty
standardized list; then emit the in-order run. -/
def dispatcherHandleBatch (total end_block : Nat) (s : DispatcherState)
    (batch : List PipelineMsg) : List PipelineCommand × DispatcherState :=
  let s1 := if s.processed = total then { s with stop := true } else s
  if batch.isEmpty then ([], s1)
  else
    let inbox2 := batch.foldl
      (fun ib m => match m.std with
        | some b => ib.insert m.height b m.compact
        | none => ib) s1.inbox
    let ooo := (batch.filter (fun m => m.std.isNone)).map (fun m => (m.height, m.compact))
    let cs2 :=
      if ooo.isEmpty then (([] : List PipelineCommand), { s1 with inbox := inbox2 })
      else ([PipelineCommand.processBlocks ooo []],
            { s1 with inbox := inbox2, processed := s1.processed + ooo.length })
    dispatcherEmitInOrder end_block cs2.1 cs2.2

/-- One iteration of the dispatcher run loop: returns the commands sent,
the new state, the remaining channel contents, and whether the loop broke. -/
def dispatcherIter (total end_block : Nat) (s : DispatcherState)
    (q : List (Option PipelineMsg)) :
    List PipelineCommand × DispatcherState × List (Option PipelineMsg) × Bool :=
  if s.stop then ([.terminate], s, q, true)
  else
    let dq := dequeueBatch q
    let r := dispatcherHandleBatch total end_block s dq.1
    (r.1, r.2, dq.2, false)

/-- The dispatcher run loop, driven by `fuel` iterations. -/
def dispatcherRun (total end_block : Nat) :
    Nat → DispatcherState → List (Option PipelineMsg) →
    List PipelineCommand × DispatcherState
  | 0, s, _ => ([], s)
  | fuel + 1, s, q =>
    let it := dispatcherIter total end_block s q
    if it.2.2.2 then (it.1, it.2.1)
    else
      let r := dispatcherRun total end_block fuel it.2.1 it.2.2.1
      (it.1 ++ r.1, r.2)

/-- The standardized-block heights carried by a command. -/
def cmdStdHeights : PipelineCommand → List Nat
  | .processBlocks _ blocks => blocks.map (fun b => b.height)
  | .terminate => []

/-- The compact-block heights carried by a command. -/
def cmdCompactHeights : PipelineCommand → List Nat
  | .processBlocks compacted _ => compacted.map (fun p => p.1)
  | .terminate => []

/-- The standardized-block heights of a command stream, in emission order. -/
def stdHeights (cmds : List PipelineCommand) : List Nat :=
  (cmds.map cmdStdHeights).flatten

/-- The per-command guarantees claimed for the dispatcher: a command holding
any below-threshold compact block carries no standardized blocks, and any
standardized blocks carried form one consecutive ascending height range. -/
def cmdOk (start_sequencing : Nat) (cmd : PipelineCommand) : Prop :=
  (∀ h ∈ cmdCompactHeights cmd, h < start_sequencing → cmdStdHeights cmd = []) ∧
  (cmdStdHeights cmd = [] ∨ ∃ a k, cmdStdHeights cmd = List.range' a k)

/-! ## Transaction data model (chainhook-types-rs) -/

/-- A transaction output: value in sats and the script pubkey hex. -/
structure TxOut where
  value : Nat
  script_pubkey : String
  deriving Repr, DecidableEq, Inhabited

/-- The previous output referenced by an input (`OutPoint` plus its value). -/
structure PrevOutput where
  txid : String
  vout : Nat
  value : Nat
  deriving Repr, DecidableEq

/-- A transaction input (witness data is not needed by these claims). -/
structure TxIn where
  previous_output : PrevOutput
  deriving Repr, DecidableEq

/-- `OrdinalInscriptionTransferDestination`. -/
inductive TransferDestination where
  | transferred (address : String)
  | burnt (script : String)
  | spentInFees
  deriving Repr, DecidableEq

/-! ## Satpoint-after-transfer computation (core/protocol/satoshi_tracking.rs) -/

/-- `UNBOUND_INSCRIPTION_SATPOINT`: the all-zeros-txid sentinel outpoint. -/
def UNBOUND_INSCRIPTION_SATPOINT : String :=
  "0000000000000000000000000000000000000000000000000000000000000000:0"

/-- `SatPosition`: where a sat lands after a transaction, on output `k` at
`offset` within it, or in the fee range. -/
inductive SatPosition where
  | output (k : Nat) (off : Nat)
  | fee (off : Nat)
  deriving Repr, DecidableEq

/-- Iteration of `compute_next_satpoint`: accumulate output values; the sat
lands on the first output whose value interval contains `abs`. -/
def compute_next_satpoint_go (abs : Nat) : Nat → Nat → List Nat → SatPosition
  | _, acc, [] => .fee (abs - acc)
  | k, acc, v :: rest =>
    if abs < acc + v then .output k (abs - acc)
    else compute_next_satpoint_go abs (k + 1) (acc + v) rest

/-- Modelled from the spec: `compute_next_satpoint_data` (the source file
`core/mod.rs` holding it is not in the snapshot).  Per spec section 4.7: let
`abs = sum(inputs[0..input_index]) + pointer`; iterate outputs accumulating
values; if `abs` lands on output `k` the result is
`Output(k, abs - sum(outputs[0..k]))`, else `Fee(abs - sum(outputs))`. -/
def compute_next_satpoint_data (input_index : Nat) (inputs outputs : List Nat)
    (pointer : Nat) : SatPosition :=
  compute_next_satpoint_go ((inputs.take input_index).sum + pointer) 0 0 outputs

/-- Outcome of decoding an output script: a proper address, a valid script
with no address form (e.g. OP_RETURN), or an undecodable script.  This stands
for the external `bitcoin` crate's `ScriptBuf::from_hex` /
`Address::from_script`. -/
inductive ScriptDecodeResult where
  | address (a : String)
  | scriptNoAddr (asm : String)
  | invalid
  deriving Repr, DecidableEq

/-- A script decoder (abstracting the external `bitcoin` crate). -/
def ScriptDecoder := String → ScriptDecodeResult

/-- Modelled from the spec: `format_outpoint_to_watch` (in a utils module not
in the snapshot); satpoints and outpoints use the textual form
`txid:vout[:offset]`. -/
def format_outpoint_to_watch (txid : String) (vout : Nat) : String :=
  txid ++ ":" ++ toString vout

/-- A transaction as consumed by the sequencer and the satoshi tracker. -/
structure Transaction where
  txid : String
  inputs : List TxIn
  outputs : List TxOut
  fee : Nat
  deriving Repr, DecidableEq

/-- Embedding of `compute_satpoint_post_transfer`: computes the sat position
over the transaction, then the destination (address, burnt script, or spent
in fees), the post-transfer satpoint string, and the landing output's
value. -/
def compute_satpoint_post_transfer (dec : ScriptDecoder) (tx : Transaction)
    (input_index : Nat) (relative_pointer_value : Nat) :
    TransferDestination × String × Option Nat :=
  let inputs := tx.inputs.map (fun o => o.previous_output.value)
  let outputs := tx.outputs.map (fun o => o.value)
  match compute_next_satpoint_data input_index inputs outputs relative_pointer_value with
  | .output k off =>
    let outpoint := format_outpoint_to_watch tx.txid k
    let script := (tx.outputs.getD k default).script_pubkey
    let dest :=
      match dec script with
      | .address a => .transferred a
      | .scriptNoAddr asm => .burnt asm
      | .invalid => .burnt script
    (dest, outpoint ++ ":" ++ toString off, some (tx.outputs.getD k default).value)
  | .fee _ =>
    (.spentInFees, UNBOUND_INSCRIPTION_SATPOINT ++ ":" ++ toString 0, none)

/-! ## Inscription sequencing (core/protocol/inscription_sequencing.rs) -/

/-- The Bitcoin network (`bitcoin::Network`, restricted to the four variants
`get_bitcoin_network` produces). -/
inductive Network where
  | bitcoin
  | testnet
  | signet
  | regtest
  deriving Repr, DecidableEq

/-- `get_jubilee_block_height`. -/
def get_jubilee_block_height : Network → Nat
  | .bitcoin => 824544
  | .regtest => 110
  | .signet => 175392
  | .testnet => 2544192

/-- `OrdinalInscriptionCurseType`. -/
inductive CurseType where
  | duplicateField
  | incompleteField
  | notAtOffsetZero
  | notInFirstInput
  | pointer
  | pushnum
  | stutter
  | unrecognizedEvenField
  | reinscription
  deriving Repr, DecidableEq

/-- `OrdinalInscriptionNumber`: the classic (possibly negative) and jubilee
numbers. -/
structure OrdinalInscriptionNumber where
  classic : Int
  jubilee : Int
  deriving Repr, DecidableEq

/-- Modelled from the spec: the `ord` charm bitset (`ord`'s `charm.rs` is
not in the snapshot); each charm is one bit of a `u16`. -/
inductive Charm where
  | coin
  | cursed
  | epic
  | legendary
  | lost
  | nineball
  | rare
  | reinscription
  | unbound
  | uncommon
  | vindicated
  | mythic
  | burned
  | palindrome
  deriving Repr, DecidableEq, Fintype

def Charm.index : Charm → Nat
  | .coin => 0
  | .cursed => 1
  | .epic => 2
  | .legendary => 3
  | .lost => 4
  | .nineball => 5
  | .rare => 6
  | .reinscription => 7
  | .unbound => 8
  | .uncommon => 9
  | .vindicated => 10
  | .mythic => 11
  | .burned => 12
  | .palindrome => 13

/-- `Charm::set`: set the charm's bit. -/
def Charm.set (c : Charm) (charms : Nat) : Nat :=
  charms ||| (1 <<< c.index)

/-- Is the charm's bit set? -/
def Charm.isSet (c : Charm) (charms : Nat) : Bool :=
  charms.testBit c.index

def COIN_VALUE : Nat := 100000000

def SUBSIDY_HALVING_INTERVAL : Nat := 210000

/-- Block subsidy of a halving epoch, in sats. -/
def epochSubsidy (e : Nat) : Nat := (50 * COIN_VALUE) >>> e

/-- Invert the subsidy schedule: the block height a sat was minted at and
its offset within that block's subsidy. -/
def satHeightOffsetGo : Nat → Nat → Nat → Nat × Nat
  | e, _, 0 => (e * SUBSIDY_HALVING_INTERVAL, 0)
  | e, rem, fuel + 1 =>
    let s := epochSubsidy e
    if s = 0 then (e * SUBSIDY_HALVING_INTERVAL, 0)
    else if rem < SUBSIDY_HALVING_INTERVAL * s then
      (e * SUBSIDY_HALVING_INTERVAL + rem / s, rem % s)
    else satHeightOffsetGo (e + 1) (rem - SUBSIDY_HALVING_INTERVAL * s) fuel

def satHeightOffset (n : Nat) : Nat × Nat := satHeightOffsetGo 0 n 34

/-- Decimal digits of a number, least significant first (20 digits cover
every u64 sat number). -/
def decDigitsGo : Nat → Nat → List Nat
  | _, 0 => []
  | n, fuel + 1 => if n < 10 then [n] else n % 10 :: decDigitsGo (n / 10) fuel

def isPalindromeNat (n : Nat) : Bool :=
  let ds := decDigitsGo n 20
  ds == ds.reverse

/-- Modelled from the spec: the charms `Sat(ordinal_number).charms()`
assigns — the rarity charm of the sat's position (Mythic for sat 0,
Legendary at a cycle start, Epic at a halving, Rare at a difficulty
adjustment, Uncommon for any first sat of a block), plus Palindrome when the
decimal sat number is a palindrome and Coin when the sat is the first sat of
its block. -/
def sat_charm_list (n : Nat) : List Charm :=
  let ho := satHeightOffset n
  let h := ho.1
  let off := ho.2
  (if off = 0 then [Charm.coin] else []) ++
  (if n = 0 then [Charm.mythic]
   else if off = 0 ∧ h % (SUBSIDY_HALVING_INTERVAL * 6) = 0 then [Charm.legendary]
   else if off = 0 ∧ h % SUBSIDY_HALVING_INTERVAL = 0 then [Charm.epic]
   else if off = 0 ∧ h % 2016 = 0 then [Charm.rare]
   else if off = 0 then [Charm.uncommon]
   else []) ++
  (if isPalindromeNat n then [Charm.palindrome] else [])

def charmsOfList (cs : List Charm) : Nat :=
  cs.foldr (fun c acc => c.set acc) 0

def sat_charms (n : Nat) : Nat := charmsOfList (sat_charm_list n)

/-- Modelled from the spec: the `SequenceCursor` counters — the next blessed
classic number, the next cursed classic number (negative), the next jubilee
number, and the greatest unbound sequence handed out so far (none before the
first). -/
structure SequenceCursor where
  pos : Int
  neg : Int
  jub : Int
  unbound : Option Int
  deriving Repr, DecidableEq

/-- Modelled from the spec: `pick_next` reads the next inscription number —
the cursed (negative) classic when cursed, the blessed classic otherwise,
with the jubilee number always drawn from the jubilee counter. -/
def SequenceCursor.pick_next (c : SequenceCursor) (cursed : Bool)
    (_block_height : Nat) (_network : Network) : OrdinalInscriptionNumber :=
  { classic := if cursed then c.neg else c.pos, jubilee := c.jub }

/-- Modelled from the spec: `increment` advances the jubilee counter and the
classic counter picked — the cursed one decrements, the blessed one
increments. -/
def SequenceCursor.increment (c : SequenceCursor) (cursed : Bool) : SequenceCursor :=
  if cursed then { c with neg := c.neg - 1, jub := c.jub + 1 }
  else { c with pos := c.pos + 1, jub := c.jub + 1 }

/-- The unbound sequence number handed out after the given high-water mark:
0 for the first, previous + 1 afterwards. -/
def nextUnbound : Option Int → Int
  | none => 0
  | some u => u + 1

/-- Modelled from the spec: `increment_unbound` returns a fresh unbound
sequence number (monotonic, starting at 0) and advances the counter. -/
def SequenceCursor.increment_unbound (c : SequenceCursor) : Int × SequenceCursor :=
  let next := nextUnbound c.unbound
  (next, { c with unbound := some next })

/-- The unbound sequence number handed out by the (k+1)-th call to
`increment_unbound` after the given high-water mark. -/
def nextUnboundAfter (u : Option Int) (k : Nat) : Int :=
  match u with
  | none => (k : Int)
  | some v => v + 1 + (k : Int)

/-- `TraversalResult` of the satoshi tracer (`satoshi_numbering.rs` is not
in the snapshot; fields as consumed by the sequencer). -/
structure TraversalResult where
  ordinal_number : Nat
  transfers : Nat
  ordinal_block_height : Nat
  ordinal_offset : Nat
  inscription_id : String
  deriving Repr, DecidableEq

/-- Modelled from the spec: `resolve_absolute_pointer` walks the
input-values prefix sum and returns the input holding the pointer and the
offset relative to that input. -/
def resolve_absolute_pointer_go : List Nat → Nat → Nat → Nat → Nat × Nat
  | [], _, _, p => (0, p)
  | v :: rest, i, acc, p =>
    if p < acc + v then (i, p - acc)
    else resolve_absolute_pointer_go rest (i + 1) (acc + v) p

def resolve_absolute_pointer (input_values : List Nat) (p : Nat) : Nat × Nat :=
  resolve_absolute_pointer_go input_values 0 0 p

/-- Modelled from the spec: `format_inscription_id` is
`txid + "i" + inscription_subindex`. -/
def format_inscription_id (txid : String) (subindex : Nat) : String :=
  txid ++ "i" ++ toString subindex

/-- `OrdinalInscriptionRevealData`, restricted to the fields the sequencer
reads or writes. -/
structure RevealData where
  inscription_id : String
  inscription_input_index : Nat
  inscription_pointer : Option Nat
  inscription_number : OrdinalInscriptionNumber
  inscription_fee : Nat
  inscription_output_value : Nat
  inscriber_address : Option String
  ordinal_number : Nat
  ordinal_block_height : Nat
  ordinal_offset : Nat
  transfers_pre_inscription : Nat
  satpoint_post_inscription : String
  tx_index : Nat
  curse_type : Option CurseType
  charms : Nat
  unbound_sequence : Option Int
  deriving Repr, DecidableEq

/-- `OrdinalOperation`. -/
inductive OrdinalOperation where
  | inscriptionRevealed (d : RevealData)
  | inscriptionTransferred (tx_index : Nat)
  deriving Repr, DecidableEq

/-- A transaction together with its ordinal operations. -/
structure SeqTx where
  tx : Transaction
  ordinal_operations : List OrdinalOperation
  deriving Repr, DecidableEq

/-- The traversal results (`inscriptions_data`), keyed by
`(txid, input_index, relative_offset)`. -/
def TraversalLookup := String → Nat → Nat → Option TraversalResult

/-- Lookup in the reinscriptions map (ordinal number → existing blessed
inscription id). -/
def rmLookup (m : List (Nat × String)) (n : Nat) : Option String :=
  (m.find? (fun e => e.1 == n)).map (fun e => e.2)

/-- `HashMap::insert` into the reinscriptions map. -/
def rmInsert (m : List (Nat × String)) (n : Nat) (id : String) :
    List (Nat × String) :=
  (n, id) :: m

/-- The mutable state threaded through the sequencer: the sequence cursor,
the reinscriptions map, and the unbound (sats_overflows) queue of
`(tx_index, op_index)` pairs. -/
structure SeqState where
  cursor : SequenceCursor
  reinscriptions : List (Nat × String)
  sats_overflows : List (Nat × Nat)
  deriving Repr, DecidableEq

/-- The `(input_index, relative_offset)` a reveal resolves to: through
`resolve_absolute_pointer` when it carries a pointer, else its input index
at offset 0. -/
def resolveRevealTarget (tx : SeqTx) (insc : RevealData) : Nat × Nat :=
  match insc.inscription_pointer with
  | some p =>
    resolve_absolute_pointer (tx.tx.inputs.map (fun o => o.previous_output.value)) p
  | none => (insc.inscription_input_index, 0)

/-- The body of the reveal arm of
`update_tx_inscriptions_with_consensus_sequence_data`: resolve the target,
look up the traversal, pick the inscription number (re-picking as cursed on
a detected reinscription of a blessed satoshi), fill the consensus fields,
OR in the sat charms, set Cursed or Vindicated for cursed reveals by the
jubilee height, compute the post-transfer satpoint, and either queue the
reveal as unbound (fees) or finalize it (recording blessed reveals in the
reinscriptions map and advancing the cursor). -/
def update_reveal (dec : ScriptDecoder) (lookup : TraversalLookup)
    (block_height : Nat) (network : Network) (tx : SeqTx)
    (tx_index op_index : Nat) (st : SeqState) (subindex : Nat)
    (insc : RevealData) : Except String (RevealData × SeqState × Nat) :=
  let is_cursed0 := insc.curse_type.isSome
  let ir := resolveRevealTarget tx insc
  let inscription_id := format_inscription_id tx.tx.txid subindex
  match lookup tx.tx.txid ir.1 ir.2 with
  | none => .error "Unable to retrieve backward traversal result for inscription"
  | some traversal =>
    let forced := !is_cursed0 && (rmLookup st.reinscriptions traversal.ordinal_number).isSome
    let is_cursed := is_cursed0 || forced
    let number :=
      if forced then st.cursor.pick_next true block_height network
      else st.cursor.pick_next is_cursed0 block_height network
    let charms1 := if forced then Charm.reinscription.set insc.charms else insc.charms
    let insc1 : RevealData := { insc with
      inscription_id := inscription_id,
      inscription_number := number,
      ordinal_offset := traversal.ordinal_offset,
      ordinal_block_height := traversal.ordinal_block_height,
      ordinal_number := traversal.ordinal_number,
      transfers_pre_inscription := traversal.transfers,
      inscription_fee := tx.tx.fee,
      tx_index := tx_index,
      curse_type := if forced then some CurseType.reinscription else insc.curse_type,
      charms := charms1 ||| sat_charms traversal.ordinal_number }
    let insc2 :=
      if is_cursed then
        if get_jubilee_block_height network ≤ block_height then
          { insc1 with charms := Charm.vindicated.set insc1.charms }
        else
          { insc1 with charms := Charm.cursed.set insc1.charms }
      else insc1
    let res := compute_satpoint_post_transfer dec tx.tx ir.1 ir.2
    let insc3 := { insc2 with satpoint_post_inscription := res.2.1 }
    match res.1 with
    | .spentInFees =>
      .ok ({ insc3 with charms := Charm.unbound.set insc3.charms },
        { st with sats_overflows := st.sats_overflows ++ [(tx_index, op_index)] },
        subindex + 1)
    | .burnt _ =>
      let insc4 := { insc3 with charms := Charm.burned.set insc3.charms }
      let st2 :=
        if !is_cursed then
          { st with reinscriptions :=
              rmInsert st.reinscriptions traversal.ordinal_number traversal.inscription_id }
        else st
      .ok (insc4, { st2 with cursor := st2.cursor.increment is_cursed }, subindex + 1)
    | .transferred addr =>
      let insc4 := { insc3 with
        inscription_output_value := (res.2.2).getD 0,
        inscriber_address := some addr,
        charms := if (res.2.2).isNone then Charm.lost.set insc3.charms else insc3.charms }
      let st2 :=
        if !is_cursed then
          { st with reinscriptions :=
              rmInsert st.reinscriptions traversal.ordinal_number traversal.inscription_id }
        else st
      .ok (insc4, { st2 with cursor := st2.cursor.increment is_cursed }, subindex + 1)

/-- The operation loop of
`update_tx_inscriptions_with_consensus_sequence_data`: transfers are kept,
reveals are updated in order with the state threaded through. -/
def update_tx_go (dec : ScriptDecoder) (lookup : TraversalLookup)
    (block_height : Nat) (network : Network) (tx : SeqTx) (tx_index : Nat) :
    List OrdinalOperation → Nat → SeqState → Nat →
    Except String (List OrdinalOperation × SeqState)
  | [], _, st, _ => .ok ([], st)
  | .inscriptionTransferred t :: rest, op_index, st, subindex =>
    (update_tx_go dec lookup block_height network tx tx_index rest
      (op_index + 1) st subindex).map
      (fun r => (.inscriptionTransferred t :: r.1, r.2))
  | .inscriptionRevealed insc :: rest, op_index, st, subindex =>
    match update_reveal dec lookup block_height network tx tx_index op_index
      st subindex insc with
    | .error e => .error e
    | .ok (insc2, st2, subindex2) =>
      (update_tx_go dec lookup block_height network tx tx_index rest
        (op_index + 1) st2 subindex2).map
        (fun r => (.inscriptionRevealed insc2 :: r.1, r.2))

def update_tx (dec : ScriptDecoder) (lookup : TraversalLookup)
    (block_height : Nat) (network : Network) (tx : SeqTx) (tx_index : Nat)
    (st : SeqState) : Except String (SeqTx × SeqState) :=
  (update_tx_go dec lookup block_height network tx tx_index
    tx.ordinal_operations 0 st 0).map
    (fun r => ({ tx with ordinal_operations := r.1 }, r.2))

/-- The transaction loop of
`update_block_inscriptions_with_consensus_sequence_data`. -/
def update_block_txs (dec : ScriptDecoder) (lookup : TraversalLookup)
    (block_height : Nat) (network : Network) :
    List SeqTx → Nat → SeqState → Except String (List SeqTx × SeqState)
  | [], _, st => .ok ([], st)
  | tx :: rest, tx_index, st =>
    match update_tx dec lookup block_height network tx tx_index st with
    | .error e => .error e
    | .ok (tx2, st2) =>
      (update_block_txs dec lookup block_height network rest (tx_index + 1) st2).map
        (fun r => (tx2 :: r.1, r.2))

/-- The ordinal operation at `(tx_index, op_index)` in a block. -/
def opAt (txs : List SeqTx) (i j : Nat) : Option OrdinalOperation :=
  (txs[i]?).bind (fun tx => tx.ordinal_operations[j]?)

/-- Overwrite the ordinal operation at `(tx_index, op_index)`. -/
def setOp (txs : List SeqTx) (i j : Nat) (op : OrdinalOperation) : List SeqTx :=
  ((txs[i]?).map (fun tx =>
    txs.set i { tx with ordinal_operations := tx.ordinal_operations.set j op })).getD txs

/-- The unbound-queue drain loop of
`update_block_inscriptions_with_consensus_sequence_data`: for each queued
`(tx_index, op_index)` in order, assign the inscription number from the
cursor, advance it, draw a fresh unbound sequence number, and point the
satpoint at the all-zeros sentinel followed by that sequence. -/
def drain_unbound (block_height : Nat) (network : Network) :
    List (Nat × Nat) → List SeqTx → SequenceCursor →
    List SeqTx × SequenceCursor
  | [], txs, cur => (txs, cur)
  | (i, j) :: rest, txs, cur =>
    match opAt txs i j with
    | some (.inscriptionRevealed insc) =>
      let is_cursed := insc.curse_type.isSome
      let number := cur.pick_next is_cursed block_height network
      let cur2 := cur.increment is_cursed
      let r := cur2.increment_unbound
      let insc2 := { insc with
        inscription_number := number,
        satpoint_post_inscription :=
          UNBOUND_INSCRIPTION_SATPOINT ++ ":" ++ toString r.1,
        ordinal_offset := r.1.toNat,
        unbound_sequence := some r.1 }
      drain_unbound block_height network rest
        (setOp txs i j (.inscriptionRevealed insc2)) r.2
    | _ => drain_unbound block_height network rest txs cur

/-- `update_block_inscriptions_with_consensus_sequence_data`: update every
transaction in order, then drain the unbound queue. -/
def update_block_inscriptions (dec : ScriptDecoder) (lookup : TraversalLookup)
    (block_height : Nat) (network : Network) (txs : List SeqTx)
    (cursor : SequenceCursor) (reinscriptions0 : List (Nat × String)) :
    Except String (List SeqTx × SequenceCursor) :=
  match update_block_txs dec lookup block_height network txs 0
    { cursor := cursor, reinscriptions := reinscriptions0, sats_overflows := [] } with
  | .error e => .error e
  | .ok (txs2, st) =>
    .ok (drain_unbound block_height network st.sats_overflows txs2 st.cursor)

/-! ## ZMQ run loop and fork scratch pad (chainhook-sdk/src/observer/zmq.rs) -/

/-- A block header: own hash, parent hash, height. -/
structure ZHeader where
  hash : String
  parent : String
  height : Nat
  deriving Repr, DecidableEq

/-- Modelled from the spec: the fork scratch pad (`fork_scratch_pad.rs` is
not in the snapshot) holds the candidate headers and the current canonical
chain, oldest first. -/
structure ForkScratchPad where
  headers : List ZHeader
  canonical : List ZHeader
  deriving Repr, DecidableEq

/-- Look up a header by hash among the known headers. -/
def findHeader (hs : List ZHeader) (h : String) : Option ZHeader :=
  hs.find? (fun x => x.hash == h)

/-- Modelled from the spec: `can_process_header(h)` is true iff `h.parent`
equals the current tip, or `h.parent` is already known in the pad. -/
def ForkScratchPad.canProcessHeader (pad : ForkScratchPad) (h : ZHeader) : Bool :=
  (match pad.canonical.getLast? with
   | some tip => h.parent == tip.hash
   | none => true) || (findHeader pad.headers h.parent).isSome

/-- The chain from the in-memory root to a header, following parent links
within the known set (fuel-bounded by the number of known headers). -/
def ancestryGo (hs : List ZHeader) : Nat → ZHeader → List ZHeader
  | 0, h => [h]
  | fuel + 1, h =>
    match findHeader hs h.parent with
    | some p => ancestryGo hs fuel p ++ [h]
    | none => [h]

def ancestry (hs : List ZHeader) (h : ZHeader) : List ZHeader :=
  ancestryGo hs hs.length h

/-- Lexicographic order on character lists (by code point). -/
def charsLtB : List Char → List Char → Bool
  | [], [] => false
  | [], _ :: _ => true
  | _ :: _, [] => false
  | x :: xs, y :: ys =>
    if x.toNat < y.toNat then true
    else if y.toNat < x.toNat then false
    else charsLtB xs ys

/-- Lexicographic order on strings (by code point, which is byte order on
the ASCII hex strings used for hashes). -/
def strLtB (a b : String) : Bool :=
  charsLtB a.data b.data

/-- Heaviest-path comparison: strictly longer wins; on equal length the
lexicographically greater tip hash wins (the spec's tie-break). -/
def betterChain (a b : List ZHeader) : Bool :=
  decide (b.length < a.length) ||
    (b.length == a.length &&
      (match a.getLast?, b.getLast? with
       | some x, some y => strLtB y.hash x.hash
       | _, _ => false))

/-- The heaviest path among all chains constructible from the known set. -/
def heaviestChain (hs : List ZHeader) : List ZHeader :=
  hs.foldl (fun best h =>
    let c := ancestry hs h
    if betterChain c best then c else best) []

/-- Length of the shared leading segment of two chains. -/
def sharedStart : List ZHeader → List ZHeader → Nat
  | a :: as2, b :: bs => if a == b then 1 + sharedStart as2 bs else 0
  | _, _ => 0

/-- A chain event surfaced by the fork scratch pad. -/
inductive ChainEvent where
  | headers (new_headers : List ZHeader) (confirmed : List ZHeader)
  | reorg (headers_to_rollback : List ZHeader) (headers_to_apply : List ZHeader)
      (confirmed : List ZHeader)
  deriving Repr, DecidableEq

/-- The sliding-window size of the ZMQ live path. -/
def zmqPadWindow : Nat := 7

/-- Modelled from the spec: `process_header(h)` inserts the header (silently
rejecting duplicates), recomputes the heaviest path, and emits
`ChainUpdatedWithHeaders` when the new tip strictly extends the prior tip via
parent links, `ChainUpdatedWithReorg` when the prior tip left the heaviest
path, and nothing when the canonical chain is unchanged. -/
def ForkScratchPad.processHeader (pad : ForkScratchPad) (h : ZHeader) :
    ForkScratchPad × Option ChainEvent :=
  if (findHeader pad.headers h.hash).isSome then (pad, none)
  else
    let headers2 := pad.headers ++ [h]
    let canonical2 := heaviestChain headers2
    if canonical2 == pad.canonical then
      ({ headers := headers2, canonical := canonical2 }, none)
    else
      let k := sharedStart pad.canonical canonical2
      let confirmed := canonical2.take (canonical2.length - zmqPadWindow)
      if k == pad.canonical.length then
        ({ headers := headers2, canonical := canonical2 },
          some (.headers (canonical2.drop k) confirmed))
      else
        ({ headers := headers2, canonical := canonical2 },
          some (.reorg (pad.canonical.drop k) (canonical2.drop k) confirmed))

/-- A command the ZMQ loop sends to the observer. -/
inductive ZmqEmit where
  | standardize (hash : String)
  | propagate (e : ChainEvent)
  deriving Repr, DecidableEq

/-- The inner `while let Some(block_hash) = block_hashes.pop_front()` loop of
`start_zeromq_runloop`: fetch the block (skipping it on download failure),
send `StandardizeBitcoinBlock`, and either process the header or push the
block hash back with its parent hash in front of it. -/
def zmqDrainLoop (fetch : String → Option ZHeader) :
    Nat → ForkScratchPad → List String → List ZmqEmit →
    ForkScratchPad × List ZmqEmit
  | 0, pad, _, out => (pad, out)
  | _ + 1, pad, [], out => (pad, out)
  | fuel + 1, pad, hash :: rest, out =>
    match fetch hash with
    | none => zmqDrainLoop fetch fuel pad rest out
    | some header =>
      let out2 := out ++ [ZmqEmit.standardize hash]
      if pad.canProcessHeader header then
        let r := pad.processHeader header
        let out3 := match r.2 with
          | some ev => out2 ++ [ZmqEmit.propagate ev]
          | none => out2
        zmqDrainLoop fetch fuel r.1 rest out3
      else
        zmqDrainLoop fetch fuel pad (header.parent :: hash :: rest) out2

/-- The chain events propagated to the observer, in order. -/
def propagatedEvents (out : List ZmqEmit) : List ChainEvent :=
  out.filterMap (fun e => match e with
    | .propagate ev => some ev
    | .standardize _ => none)

/-- The 2-deep-reorg scenario: chain A→B1→C1 is canonical; A→B2→C2→D2 is the
new heaviest chain and ZMQ announces only D2. -/
def zmqHdrA : ZHeader := { hash := "a", parent := "0", height := 1 }

def zmqHdrB1 : ZHeader := { hash := "b1", parent := "a", height := 2 }

def zmqHdrC1 : ZHeader := { hash := "f1", parent := "b1", height := 3 }

def zmqHdrB2 : ZHeader := { hash := "b2", parent := "a", height := 2 }

def zmqHdrC2 : ZHeader := { hash := "c2", parent := "b2", height := 3 }

def zmqHdrD2 : ZHeader := { hash := "d2", parent := "c2", height := 4 }

/-- The block source for the scenario: every block of both forks can be
fetched from bitcoind by hash. -/
def zmqScenarioFetch (h : String) : Option ZHeader :=
  findHeader [zmqHdrA, zmqHdrB1, zmqHdrC1, zmqHdrB2, zmqHdrC2, zmqHdrD2] h

/-- The scratch pad state after the original chain A→B1→C1 was processed. -/
def zmqScenarioPad : ForkScratchPad :=
  { headers := [zmqHdrA, zmqHdrB1, zmqHdrC1],
    canonical := [zmqHdrA, zmqHdrB1, zmqHdrC1] }

/-! ## BRC-20 block indexing (brc20/index.rs) -/

/-- A buffered ordinal transfer as the BRC-20 indexer sees it: the
transaction index it occurred at, plus an abstract payload standing for the
transfer data. -/
structure Brc20Transfer where
  tx_index : Nat
  payload : Nat
  deriving Repr, DecidableEq

/-- An ordinal operation in block order, as consumed by
`index_block_and_insert_brc20_operations`: an `InscriptionRevealed` whose
inscription id either has a parsed BRC-20 operation in the block's operation
map or not, or an `InscriptionTransferred`. -/
inductive Brc20Op where
  | reveal (inscription_id : String) (hasParsedOp : Bool)
  | transfer (t : Brc20Transfer)
  deriving Repr, DecidableEq

/-- A step in the indexer's observable behaviour: a verified transfer-send
applied to the ledger, or `verify_brc20_operation` invoked for a reveal. -/
inductive Brc20Action where
  | applyTransferSend (t : Brc20Transfer)
  | verifyReveal (inscription_id : String)
  deriving Repr, DecidableEq

/-- The transfer verifier (`verify_brc20_transfers`, whose source file is
not in the snapshot), abstracted as a function selecting the verified subset
of a buffered batch. -/
def Brc20Verifier := List Brc20Transfer → List Brc20Transfer

/-- `index_unverified_brc20_transfers`: verify the buffered batch at once,
sort the verified transfers by `tx_index` (`sort_by`, a stable sort), then
apply each transfer-send in order. -/
def index_unverified_brc20_transfers (ver : Brc20Verifier)
    (buffered : List Brc20Transfer) : List Brc20Action :=
  ((ver buffered).mergeSort
      (fun a b => decide (a.tx_index ≤ b.tx_index))).map .applyTransferSend

/-- The reveal/transfer loop of `index_block_and_insert_brc20_operations`:
on a reveal with a parsed operation, first flush the buffered transfers and
then verify the new operation; on a reveal without one, skip; on a transfer,
buffer it; at the end of the block flush the remaining buffer. -/
def brc20IndexGo (ver : Brc20Verifier) :
    List Brc20Op → List Brc20Transfer → List Brc20Action
  | [], buffered => index_unverified_brc20_transfers ver buffered
  | .reveal id true :: rest, buffered =>
    index_unverified_brc20_transfers ver buffered ++
      .verifyReveal id :: brc20IndexGo ver rest []
  | .reveal _ false :: rest, buffered => brc20IndexGo ver rest buffered
  | .transfer t :: rest, buffered => brc20IndexGo ver rest (buffered ++ [t])

/-- The action trace of `index_block_and_insert_brc20_operations` over the
block's ordinal operations in (tx_index, op) order. -/
def index_block_brc20_trace (ver : Brc20Verifier) (ops : List Brc20Op) :
    List Brc20Action :=
  brc20IndexGo ver ops []

/-- Is this operation a reveal carrying a parsed BRC-20 operation? -/
def isParsedRevealB : Brc20Op → Bool
  | .reveal _ true => true
  | _ => false

/-- The transfers among a list of operations, in order. -/
def transfersOf : List Brc20Op → List Brc20Transfer
  | [] => []
  | .transfer t :: rest => t :: transfersOf rest
  | .reveal _ _ :: rest => transfersOf rest

/-! ## Concrete sequencer fixtures -/

/-- A transaction with one 10000-sat input and one 2000-sat output. -/
def seqTxA : Transaction :=
  { txid := "ab",
    inputs := [{ previous_output := { txid := "cd", vout := 0, value := 10000 } }],
    outputs := [{ value := 2000, script_pubkey := "51" }],
    fee := 0 }

/-- A reveal as produced by parsing: everything still zeroed. -/
def seqInscBase : RevealData :=
  { inscription_id := "", inscription_input_index := 0,
    inscription_pointer := none,
    inscription_number := { classic := 0, jubilee := 0 },
    inscription_fee := 0, inscription_output_value := 0,
    inscriber_address := none, ordinal_number := 0, ordinal_block_height := 0,
    ordinal_offset := 0, transfers_pre_inscription := 0,
    satpoint_post_inscription := "", tx_index := 0, curse_type := none,
    charms := 0, unbound_sequence := none }

/-- A reveal whose pointer lands past the output values (spent in fees). -/
def seqInscFee : RevealData :=
  { seqInscBase with inscription_pointer := some 5000 }

/-- A reveal cursed by carrying a pointer curse type. -/
def seqInscCursed : RevealData :=
  { seqInscBase with curse_type := some .pointer }

/-- The fee-bound reveal inside its transaction. -/
def seqTx0 : SeqTx :=
  { tx := seqTxA, ordinal_operations := [.inscriptionRevealed seqInscFee] }

/-- The plain (output-bound) reveal inside its transaction. -/
def seqTxOut0 : SeqTx :=
  { tx := seqTxA, ordinal_operations := [.inscriptionRevealed seqInscBase] }

/-- The cursed reveal inside its transaction. -/
def seqTxCursed0 : SeqTx :=
  { tx := seqTxA, ordinal_operations := [.inscriptionRevealed seqInscCursed] }

/-- A traversal result for ordinal 7. -/
def seqTr0 : TraversalResult :=
  { ordinal_number := 7, transfers := 0, ordinal_block_height := 9,
    ordinal_offset := 3, inscription_id := "prev" }

/-- A lookup that always resolves to `seqTr0`. -/
def seqLookup0 : TraversalLookup := fun _ _ _ => some seqTr0

/-- A script decoder that always yields an address. -/
def seqDec0 : ScriptDecoder := fun _ => .address "addr1"

/-- A fresh sequence cursor. -/
def seqCursor0 : SequenceCursor :=
  { pos := 0, neg := -1, jub := 0, unbound := none }

/-- A fresh sequencing state. -/
def seqSt0 : SeqState :=
  { cursor := seqCursor0, reinscriptions := [], sats_overflows := [] }

/-- A state whose reinscriptions map already holds ordinal 7. -/
def seqStR : SeqState :=
  { seqSt0 with reinscriptions := [(7, "oldid")] }

/-- The block update of the single output-bound reveal. -/
def seqBlockUpd : Except String (List SeqTx × SeqState) :=
  update_block_txs seqDec0 seqLookup0 840000 .bitcoin [seqTxOut0] 0
    { cursor := seqCursor0, reinscriptions := [], sats_overflows := [] }

/-- The payload of `seqBlockUpd`. -/
def seqBlockUpdRes : List SeqTx × SeqState :=
  seqBlockUpd.toOption.getD ([], seqSt0)

end Hord

/-! # Theorems -/

namespace Hord

theorem natCmp_eq_lt {a b : Nat} : natCmp a b = .lt ↔ a < b := by
  unfold natCmp
  by_cases h : a < b
  · simp [h]
  · by_cases h2 : a = b <;> simp [h, h2]

theorem natCmp_eq_eq {a b : Nat} : natCmp a b = .eq ↔ a = b := by
  unfold natCmp
  by_cases h : a < b
  · simp [h]; omega
  · by_cases h2 : a = b <;> simp [h, h2]

theorem strCmp_eq_eq {a b : String} : strCmp a b = .eq ↔ a = b := by
  unfold strCmp
  by_cases h : a < b
  · simp [h]
    intro he; subst he; exact absurd h (lt_irrefl a)
  · by_cases h2 : a = b <;> simp [h, h2]

theorem natCmp_eq_gt {a b : Nat} : natCmp a b = .gt ↔ b < a := by
  unfold natCmp
  by_cases h : a < b
  · simp [h]; omega
  · by_cases h2 : a = b <;> first | (simp [h, h2]; omega) | simp [h, h2]

theorem strCmp_eq_lt {a b : String} : strCmp a b = .lt ↔ a < b := by
  unfold strCmp
  by_cases h : a < b
  · simp [h]
  · by_cases h2 : a = b <;> simp [h, h2]

/-- C7 counterexample: at `a = (height 0, hash "h")`, `b = (height 1, hash
"h")` the code's `partial_cmp` does not agree with its `cmp`: `cmp` orders
descending while `partial_cmp` forwards `other.cmp(self)`, the ascending
dual, so `partial_cmp(a,b) = Some(Less)` while `cmp(a,b) = Greater`. -/
theorem blockId_pcmp_cmp_counterexample :
    blockIdPcmp ⟨0, "h"⟩ ⟨1, "h"⟩ ≠
      some (blockIdCmp ⟨0, "h"⟩ ⟨1, "h"⟩) := by
  simp [blockIdPcmp, blockIdCmp, natCmp]

/-- C7 (amended): equality of `BlockIdentifier` holds iff the hashes are
equal (heights ignored); `cmp` implements the strict descending order on
`(height, hash)`; but `partial_cmp(a, b)` returns `Some(cmp(b, a))` — the
ascending dual of `cmp` — so the two comparison operations only agree on
elements that compare equal. -/
theorem blockId_order_spec (a b : BlockIdentifier) :
    (blockIdEq a b = true ↔ a.hash = b.hash) ∧
    (blockIdCmp a b = .lt ↔ (b.index < a.index ∨ (b.index = a.index ∧ b.hash < a.hash))) ∧
    (blockIdCmp a b = .eq ↔ (a.index = b.index ∧ a.hash = b.hash)) ∧
    blockIdPcmp a b = some (blockIdCmp b a) := by
  refine ⟨?_, ?_, ?_, rfl⟩
  · simp [blockIdEq]
  · unfold blockIdCmp
    cases hn : natCmp b.index a.index with
    | lt => simp [natCmp_eq_lt.mp hn]
    | eq =>
      have he := natCmp_eq_eq.mp hn
      rw [show (match Ordering.eq with
          | Ordering.eq => strCmp b.hash a.hash
          | o => o) = strCmp b.hash a.hash from rfl]
      rw [strCmp_eq_lt]
      constructor
      · intro hh; exact Or.inr ⟨he, hh⟩
      · rintro (hlt | ⟨_, hh⟩)
        · omega
        · exact hh
    | gt =>
      have hgt := natCmp_eq_gt.mp hn
      simp only [reduceCtorEq, false_iff]
      rintro (hlt | ⟨heq, _⟩) <;> omega
  · unfold blockIdCmp
    cases hn : natCmp b.index a.index with
    | lt =>
      have hlt := natCmp_eq_lt.mp hn
      simp only [reduceCtorEq, false_iff]
      rintro ⟨heq, _⟩; omega
    | eq =>
      have he := natCmp_eq_eq.mp hn
      rw [show (match Ordering.eq with
          | Ordering.eq => strCmp b.hash a.hash
          | o => o) = strCmp b.hash a.hash from rfl]
      rw [strCmp_eq_eq]
      constructor
      · intro hh; exact ⟨he.symm, hh.symm⟩
      · rintro ⟨_, hh⟩; exact hh.symm
    | gt =>
      have hgt := natCmp_eq_gt.mp hn
      simp only [reduceCtorEq, false_iff]
      rintro ⟨heq, _⟩; omega

theorem chunks500_mem_ne_nil {α : Type} :
    ∀ (n : Nat) (l : List α), l.length ≤ n → ∀ c ∈ chunks500 l, c ≠ [] := by
  intro n
  induction n with
  | zero =>
    intro l hl c hc
    have : l = [] := List.length_eq_zero.mp (Nat.le_zero.mp hl)
    subst this
    simp [chunks500] at hc
  | succ n ih =>
    intro l hl c hc
    match l with
    | [] => simp [chunks500] at hc
    | a :: rest =>
      rw [chunks500] at hc
      rcases List.mem_cons.mp hc with rfl | hc
      · simp [List.take_succ_cons]
      · have hlen : (rest.drop 499).length ≤ n := by
          simp only [List.length_drop]
          simp only [List.length_cons] at hl
          omega
        exact ih (rest.drop 499) hlen c hc

theorem chunks500_ne_nil {α : Type} (l : List α) (h : l ≠ []) :
    chunks500 l ≠ [] := by
  match l with
  | [] => exact absurd rfl h
  | a :: rest => rw [chunks500]; simp

/-- C10: every `INSERT INTO operations` statement built by
`insert_operations` names 15 target columns but generates exactly 14
placeholders per row tuple and binds exactly 14 values per row (a single
`amount` value), so for any non-empty input at least one statement is
executed and none of the executed statements is well formed. -/
theorem insert_operations_column_mismatch (ops : List DbOperation) :
    insert_operations_columns.length = 15 ∧
    insert_operations_param_count = 14 ∧
    (∀ s ∈ insert_operations_statements ops,
      (∀ r ∈ s.placeholder_rows, r.length = 14) ∧
      (∀ r ∈ s.value_rows, r.length = 14)) ∧
    (ops ≠ [] →
      insert_operations_statements ops ≠ [] ∧
      ∀ s ∈ insert_operations_statements ops, ¬ s.well_formed) := by
  refine ⟨by decide, by decide, ?_, ?_⟩
  · intro s hs
    obtain ⟨c, _, rfl⟩ := List.mem_map.mp hs
    constructor
    · intro r hr
      obtain ⟨row, _, rfl⟩ := List.mem_map.mp hr
      simp [insert_operations_param_count]
    · intro r hr
      obtain ⟨row, _, rfl⟩ := List.mem_map.mp hr
      simp [insert_operations_row_params]
  · intro hne
    constructor
    · intro hmap
      exact chunks500_ne_nil ops hne (List.map_eq_nil_iff.mp hmap)
    · intro s hs hwf
      obtain ⟨c, hc, rfl⟩ := List.mem_map.mp hs
      have hcne : c ≠ [] := chunks500_mem_ne_nil ops.length ops (le_refl _) c hc
      have hclen : c.length ≠ 0 := fun hh => hcne (List.length_eq_zero.mp hh)
      have hmem : ((List.range insert_operations_param_count).map
          (fun i => 0 * insert_operations_param_count + i + 1)) ∈
            (insert_operations_stmt c).placeholder_rows := by
        simp only [insert_operations_stmt, chunk_insert_values_params]
        exact List.mem_map.mpr ⟨0, List.mem_range.mpr (by omega), rfl⟩
      have := hwf.1 _ hmem
      simp [insert_operations_stmt, insert_operations_param_count,
        insert_operations_columns] at this

/-- Witness for C10 at a one-row input. -/
theorem insert_operations_column_mismatch_witness :
    let row : DbOperation :=
      { ticker := "pepe", operation := "mint", inscription_id := "abi0",
        ordinal_number := 1, block_height := 2, block_hash := "bh", tx_id := "tx",
        tx_index := 0, output := "tx:0", «offset» := 0, timestamp := 0,
        address := "addr", to_address := none, amount := 5 }
    insert_operations_statements [row] ≠ [] ∧
    ∀ s ∈ insert_operations_statements [row], ¬ s.well_formed := by
  exact (insert_operations_column_mismatch _).2.2.2 (by simp)

theorem processBlockAttemptsGo_none (std : Nat → Option CachedBlock) :
    ∀ (fuel a : Nat), a ≤ observer_max_attempts →
      (∀ k, a ≤ k → k ≤ observer_max_attempts → std k = none) →
      observer_max_attempts + 1 - a ≤ fuel →
      processBlockAttemptsGo std a fuel = none := by
  intro fuel
  induction fuel with
  | zero => intro a _ _ hf; rfl
  | succ fuel ih =>
    intro a ha hnone _
    simp only [processBlockAttemptsGo, hnone a (le_refl a) ha]
    by_cases hend : a + 1 > observer_max_attempts
    · simp [hend]
    · simp only [hend, if_false]
      exact ih (a + 1) (by omega) (fun k hk1 hk2 => hnone k (by omega) hk2) (by omega)

theorem processBlockAttemptsGo_some (std : Nat → Option CachedBlock) :
    ∀ (fuel a k : Nat) (b : CachedBlock), a ≤ k → k ≤ observer_max_attempts →
      std k = some b → (∀ j, a ≤ j → j < k → std j = none) →
      k - a < fuel →
      processBlockAttemptsGo std a fuel = some b := by
  intro fuel
  induction fuel with
  | zero => intro a k b _ _ _ _ hf; exact absurd hf (by omega)
  | succ fuel ih =>
    intro a k b hak hk hsome hnone hf
    by_cases heq : a = k
    · subst heq
      simp [processBlockAttemptsGo, hsome]
    · have ha : std a = none := hnone a (le_refl a) (by omega)
      simp only [processBlockAttemptsGo, ha]
      have hcond : ¬ (a + 1 > observer_max_attempts) := by
        simp only [observer_max_attempts] at *
        omega
      simp only [hcond, if_false]
      exact ih (a + 1) k b (by omega) hk hsome
        (fun j hj1 hj2 => hnone j (by omega) hj2) (by omega)

/-- C9: the `ProcessBitcoinBlock` handler retries standardization up to 10
additional attempts after the initial one; if every attempt `0..10` fails,
the result is `none` and the observer run loop stops without handling the
remaining commands; if some attempt `k ≤ 10` succeeds, the standardized
block is inserted into the block cache and the loop continues. -/
theorem observer_process_block_spec :
    (∀ std : Nat → Option CachedBlock,
      (∀ k, k ≤ observer_max_attempts → std k = none) →
      processBlockAttempts std = none) ∧
    (∀ (std : Nat → Option CachedBlock) (k : Nat) (b : CachedBlock),
      k ≤ observer_max_attempts → std k = some b → (∀ j, j < k → std j = none) →
      processBlockAttempts std = some b) ∧
    (∀ (std : Nat → Option CachedBlock) (rest : List ObserverCommand) (store : BlockStore),
      processBlockAttempts std = none →
      observerRun (.processBitcoinBlock std :: rest) store = (store, false)) ∧
    (∀ (std : Nat → Option CachedBlock) (rest : List ObserverCommand)
        (store : BlockStore) (b : CachedBlock),
      processBlockAttempts std = some b →
      observerRun (.processBitcoinBlock std :: rest) store =
        observerRun rest (store.insert b)) := by
  refine ⟨?_, ?_, ?_, ?_⟩
  · intro std hnone
    exact processBlockAttemptsGo_none std _ 0 (by omega)
      (fun k _ hk => hnone k hk) (by omega)
  · intro std k b hk hsome hnone
    exact processBlockAttemptsGo_some std _ 0 k b (by omega) hk hsome
      (fun j _ hj => hnone j hj)
      (by simp only [observer_max_attempts] at hk ⊢; omega)
  · intro std rest store hfail
    simp [observerRun, hfail]
  · intro std rest store b hok
    simp [observerRun, hok]

/-- Witness for C9: a block that never standardizes stops the loop; one that
standardizes at attempt 3 is cached. -/
theorem observer_process_block_spec_witness :
    processBlockAttempts (fun _ => none) = none ∧
    processBlockAttempts
      (fun k => if k = 3 then some ⟨"hash", 5⟩ else none) = some ⟨"hash", 5⟩ ∧
    observerRun [.processBitcoinBlock (fun _ => none), .terminate] [] = ([], false) ∧
    observerRun [.processBitcoinBlock (fun k => if k = 3 then some ⟨"hash", 5⟩ else none)] []
      = ([("hash", ⟨"hash", 5⟩)], true) := by
  have h1 := observer_process_block_spec.1 (fun _ => none) (fun k _ => rfl)
  have h2 := observer_process_block_spec.2.1
    (fun k => if k = 3 then some ⟨"hash", 5⟩ else none) 3 ⟨"hash", 5⟩
    (by decide) (by decide) (by intro j hj; interval_cases j <;> rfl)
  have h3 := observer_process_block_spec.2.2.1 (fun _ => none) [.terminate] [] h1
  have h4 := observer_process_block_spec.2.2.2
    (fun k => if k = 3 then some ⟨"hash", 5⟩ else none) [] [] ⟨"hash", 5⟩ h2
  refine ⟨h1, h2, h3, ?_⟩
  rw [h4]
  rfl

theorem compute_next_satpoint_go_fee (abs : Nat) :
    ∀ (outs : List Nat) (k acc : Nat), acc + outs.sum ≤ abs →
      compute_next_satpoint_go abs k acc outs = .fee (abs - (acc + outs.sum)) := by
  intro outs
  induction outs with
  | nil => intro k acc h; simp [compute_next_satpoint_go]
  | cons v rest ih =>
    intro k acc h
    simp only [List.sum_cons] at h
    have hnotlt : ¬ abs < acc + v := by omega
    simp only [compute_next_satpoint_go, hnotlt, if_false]
    have := ih (k + 1) (acc + v) (by omega)
    rw [this]
    congr 1
    simp only [List.sum_cons]
    omega

theorem compute_next_satpoint_go_output (abs : Nat) :
    ∀ (outs : List Nat) (k acc j : Nat), j < outs.length →
      acc + (outs.take j).sum ≤ abs → abs < acc + (outs.take (j + 1)).sum →
      compute_next_satpoint_go abs k acc outs =
        .output (k + j) (abs - (acc + (outs.take j).sum)) := by
  intro outs
  induction outs with
  | nil => intro k acc j hj; simp at hj
  | cons v rest ih =>
    intro k acc j hj h1 h2
    match j with
    | 0 =>
      simp only [List.take_succ_cons, List.take_zero, List.sum_cons, List.sum_nil] at h1 h2 ⊢
      have hlt : abs < acc + v := by omega
      simp [compute_next_satpoint_go, hlt]
    | j' + 1 =>
      simp only [List.take_succ_cons, List.sum_cons] at h1 h2
      have hnotlt : ¬ abs < acc + v := by
        have : (rest.take j').sum ≥ 0 := Nat.zero_le _
        omega
      simp only [compute_next_satpoint_go, hnotlt, if_false]
      have hj' : j' < rest.length := by simpa using hj
      have := ih (k + 1) (acc + v) j' hj' (by omega) (by omega)
      rw [this]
      have e1 : k + 1 + j' = k + (j' + 1) := by omega
      have e2 : acc + v + (rest.take j').sum = acc + ((v :: rest).take (j' + 1)).sum := by
        simp only [List.take_succ_cons, List.sum_cons]
        omega
      rw [e1, e2]

theorem exists_landing_output (abs : Nat) :
    ∀ (outs : List Nat), abs < outs.sum →
      ∃ j, j < outs.length ∧ (outs.take j).sum ≤ abs ∧ abs < (outs.take (j + 1)).sum := by
  intro outs
  induction outs generalizing abs with
  | nil => intro h; simp at h
  | cons v rest ih =>
    intro h
    by_cases hv : abs < v
    · exact ⟨0, by simp, by simp, by simpa using hv⟩
    · simp only [List.sum_cons] at h
      obtain ⟨j', hj', hle, hlt⟩ := ih (abs - v) (by omega)
      refine ⟨j' + 1, by simpa using hj', ?_, ?_⟩
      · simp only [List.take_succ_cons, List.sum_cons]; omega
      · simp only [List.take_succ_cons, List.sum_cons]; omega

/-- C1: `compute_satpoint_post_transfer` computes
`abs = sum(inputs[0..i]) + pointer`; when `abs` is below the total output
value it lands on the unique output `k` containing `abs`, returning the
destination decoded from that output's script (`Transferred` for an address,
`Burnt` otherwise), satpoint `txid:k:(abs - sum of outputs before k)` and
that output's value; otherwise it returns `SpentInFees` with the all-zeros
sentinel satpoint at offset 0 and no output value. -/
theorem compute_satpoint_post_transfer_spec (dec : ScriptDecoder)
    (tx : Transaction) (i p : Nat) :
    ((tx.outputs.map (fun o => o.value)).sum ≤
        ((tx.inputs.map (fun o => o.previous_output.value)).take i).sum + p →
      compute_satpoint_post_transfer dec tx i p =
        (.spentInFees, UNBOUND_INSCRIPTION_SATPOINT ++ ":0", none)) ∧
    (((tx.inputs.map (fun o => o.previous_output.value)).take i).sum + p <
        (tx.outputs.map (fun o => o.value)).sum →
      ∃ k, k < tx.outputs.length ∧
        ((tx.outputs.map (fun o => o.value)).take k).sum ≤
          ((tx.inputs.map (fun o => o.previous_output.value)).take i).sum + p ∧
        ((tx.inputs.map (fun o => o.previous_output.value)).take i).sum + p <
          ((tx.outputs.map (fun o => o.value)).take (k + 1)).sum ∧
        compute_satpoint_post_transfer dec tx i p =
          ((match dec (tx.outputs.getD k default).script_pubkey with
            | .address a => .transferred a
            | .scriptNoAddr asm => .burnt asm
            | .invalid => .burnt (tx.outputs.getD k default).script_pubkey),
           tx.txid ++ ":" ++ toString k ++ ":" ++
             toString (((tx.inputs.map (fun o => o.previous_output.value)).take i).sum + p -
               ((tx.outputs.map (fun o => o.value)).take k).sum),
           some (tx.outputs.getD k default).value)) := by
  constructor
  · intro h
    simp only [compute_satpoint_post_transfer, compute_next_satpoint_data]
    rw [compute_next_satpoint_go_fee
      (((tx.inputs.map (fun o => o.previous_output.value)).take i).sum + p)
      (tx.outputs.map (fun o => o.value)) 0 0 (by omega)]
    rfl
  · intro h
    obtain ⟨k, hk, hle, hlt⟩ := exists_landing_output _ _ h
    have hk' : k < tx.outputs.length := by simpa using hk
    refine ⟨k, hk', hle, hlt, ?_⟩
    simp only [compute_satpoint_post_transfer, compute_next_satpoint_data]
    rw [compute_next_satpoint_go_output
      (((tx.inputs.map (fun o => o.previous_output.value)).take i).sum + p)
      (tx.outputs.map (fun o => o.value)) 0 0 k hk (by omega) (by omega)]
    simp [format_outpoint_to_watch]

/-- Witness for C1 at a concrete transaction: one input of value 10000, one
output of value 2000; pointer 5000 goes to fees, pointer 1500 lands on
output 0. -/
theorem compute_satpoint_post_transfer_spec_witness :
    let dec : ScriptDecoder := fun _ => .invalid
    let tx : Transaction :=
      { txid := "ab", inputs := [{ previous_output := { txid := "cd", vout := 0, value := 10000 } }],
        outputs := [{ value := 2000, script_pubkey := "6a" }], fee := 0 }
    compute_satpoint_post_transfer dec tx 0 5000 =
        (.spentInFees, UNBOUND_INSCRIPTION_SATPOINT ++ ":0", none) ∧
    compute_satpoint_post_transfer dec tx 0 1500 =
        (.burnt "6a", "ab:0:1500", some 2000) := by
  refine ⟨?_, ?_⟩
  · exact (compute_satpoint_post_transfer_spec _ _ 0 5000).1 (by decide)
  · have h := (compute_satpoint_post_transfer_spec
      (fun _ => .invalid)
      { txid := "ab", inputs := [{ previous_output := { txid := "cd", vout := 0, value := 10000 } }],
        outputs := [{ value := 2000, script_pubkey := "6a" }], fee := 0 } 0 1500).2 (by decide)
    obtain ⟨k, hk, hle, hlt, heq⟩ := h
    have hk0 : k = 0 := by
      simp only [List.length_cons, List.length_nil] at hk
      omega
    subst hk0
    simpa using heq

theorem dequeueBatchGo_spec :
    ∀ (q : List (Option PipelineMsg)) (acc : List PipelineMsg),
    acc.length < 10000 →
    (dequeueBatchGo q acc).1.length ≤ 10000 ∧
    (∀ m ∈ (dequeueBatchGo q acc).1, m ∈ acc ∨ some m ∈ q) ∧
    (∀ o ∈ (dequeueBatchGo q acc).2, o ∈ q) := by
  intro q
  induction q with
  | nil =>
    intro acc hacc
    refine ⟨?_, ?_, ?_⟩
    · simpa [dequeueBatchGo] using Nat.le_of_lt hacc
    · intro m hm
      simp only [dequeueBatchGo, List.mem_reverse] at hm
      exact Or.inl hm
    · intro o ho
      simp [dequeueBatchGo] at ho
  | cons x rest ih =>
    intro acc hacc
    match x with
    | none =>
      refine ⟨?_, ?_, ?_⟩
      · simpa [dequeueBatchGo] using Nat.le_of_lt hacc
      · intro m hm
        simp only [dequeueBatchGo, List.mem_reverse] at hm
        exact Or.inl hm
      · intro o ho
        simp only [dequeueBatchGo] at ho
        exact List.mem_cons_of_mem _ ho
    | some m =>
      by_cases hfull : 10000 ≤ acc.length + 1
      · refine ⟨?_, ?_, ?_⟩
        · simp only [dequeueBatchGo, hfull, if_true, List.length_reverse,
            List.length_cons]
          omega
        · intro x hx
          simp only [dequeueBatchGo, hfull, if_true, List.mem_reverse,
            List.mem_cons] at hx
          rcases hx with rfl | hx
          · exact Or.inr (List.mem_cons_self _ _)
          · exact Or.inl hx
        · intro o ho
          simp only [dequeueBatchGo, hfull, if_true] at ho
          exact List.mem_cons_of_mem _ ho
      · have hlen : (m :: acc).length < 10000 := by
          simp only [List.length_cons]; omega
        obtain ⟨h1, h2, h3⟩ := ih (m :: acc) hlen
        simp only [dequeueBatchGo, hfull, if_false]
        refine ⟨h1, ?_, ?_⟩
        · intro x hx
          rcases h2 x hx with hx2 | hx2
          · rcases List.mem_cons.mp hx2 with rfl | hx3
            · exact Or.inr (List.mem_cons_self _ _)
            · exact Or.inl hx3
          · exact Or.inr (List.mem_cons_of_mem _ hx2)
        · intro o ho
          exact List.mem_cons_of_mem _ (h3 o ho)

theorem dequeueBatch_length_le (q : List (Option PipelineMsg)) :
    (dequeueBatch q).1.length ≤ 10000 :=
  (dequeueBatchGo_spec q [] (by simp)).1

theorem inbox_wf_filter (start_sequencing : Nat) (ib : Inbox)
    (p : Nat × StdBlock × Nat → Bool) (h : Inbox.wf start_sequencing ib) :
    Inbox.wf start_sequencing (List.filter p ib) :=
  fun e he => h e (List.mem_filter.mp he).1

theorem inbox_wf_insert (start_sequencing : Nat) (ib : Inbox)
    (hgt : Nat) (b : StdBlock) (c : Nat) (h : Inbox.wf start_sequencing ib)
    (hb : b.height = hgt) (hth : start_sequencing ≤ hgt) :
    Inbox.wf start_sequencing (ib.insert hgt b c) := by
  intro e he
  rcases List.mem_cons.mp he with rfl | he2
  · exact ⟨hb, hth⟩
  · exact inbox_wf_filter start_sequencing ib _ h e he2

theorem inbox_wf_foldl_insert (start_sequencing : Nat) :
    ∀ (msgs : List PipelineMsg) (ib : Inbox), Inbox.wf start_sequencing ib →
    (∀ m ∈ msgs, m.fromWorker start_sequencing) →
    Inbox.wf start_sequencing (msgs.foldl
      (fun ib m => match m.std with
        | some b => ib.insert m.height b m.compact
        | none => ib) ib) := by
  intro msgs
  induction msgs with
  | nil => intro ib hib _; simpa using hib
  | cons m rest ih =>
    intro ib hib hmsgs
    simp only [List.foldl_cons]
    apply ih
    · cases hstd : m.std with
      | none => simpa [hstd] using hib
      | some b =>
        have hw := hmsgs m (List.mem_cons_self _ _)
        unfold PipelineMsg.fromWorker at hw
        rw [hstd] at hw
        by_cases hth : start_sequencing ≤ m.height
        · simp only [hth, if_true, Option.some.injEq] at hw
          simp only [hstd]
          exact inbox_wf_insert start_sequencing ib m.height b m.compact hib
            (by rw [hw]) hth
        · simp only [hth, if_false] at hw
          exact absurd hw (by simp)
    · intro x hx; exact hmsgs x (List.mem_cons_of_mem _ hx)

theorem inbox_remove_spec (start_sequencing : Nat) (ib : Inbox) (c : Nat)
    (h : Inbox.wf start_sequencing ib) (b : StdBlock) (cc : Nat) (ib2 : Inbox)
    (hr : ib.remove c = some ((b, cc), ib2)) :
    b.height = c ∧ start_sequencing ≤ c ∧ Inbox.wf start_sequencing ib2 ∧
      ib2.length < ib.length := by
  unfold Inbox.remove at hr
  cases hfind : List.find? (fun e => e.1 == c) ib with
  | none => rw [hfind] at hr; exact absurd hr (by simp)
  | some e =>
    rw [hfind] at hr
    have hmem := List.mem_of_find?_eq_some hfind
    have hkey : e.1 = c := by
      have h2 := List.find?_some hfind
      simpa using h2
    obtain ⟨hhe, hth⟩ := h e hmem
    simp only [Option.map_some', Option.some.injEq] at hr
    obtain ⟨hbc, hib2⟩ := Prod.mk.injEq .. ▸ hr
    have hb2 : e.2.1 = b := congrArg Prod.fst hbc
    refine ⟨by rw [← hb2, hhe, hkey], hkey ▸ hth, ?_, ?_⟩
    · rw [← hib2]
      exact inbox_wf_filter start_sequencing ib _ h
    · rw [← hib2]
      apply List.length_filter_lt_length_iff_exists.mpr
      exact ⟨e, hmem, by simp [hkey]⟩

theorem drainInboxGo_spec (start_sequencing : Nat) :
    ∀ (fuel : Nat) (ib : Inbox) (c : Nat), Inbox.wf start_sequencing ib →
    ∃ k,
      (drainInboxGo fuel ib c).2.2.2 = c + k ∧
      (drainInboxGo fuel ib c).2.1.map (fun b => b.height) = List.range' c k ∧
      (drainInboxGo fuel ib c).1.map (fun p => p.1) = List.range' c k ∧
      (drainInboxGo fuel ib c).2.1.length = k ∧
      Inbox.wf start_sequencing (drainInboxGo fuel ib c).2.2.1 ∧
      (∀ p ∈ (drainInboxGo fuel ib c).1, start_sequencing ≤ p.1) := by
  intro fuel
  induction fuel with
  | zero =>
    intro ib c hib
    exact ⟨0, by simp [drainInboxGo], by simp [drainInboxGo, List.range'],
      by simp [drainInboxGo, List.range'], by simp [drainInboxGo],
      by simpa [drainInboxGo] using hib, by simp [drainInboxGo]⟩
  | succ fuel ih =>
    intro ib c hib
    cases hr : ib.remove c with
    | none =>
      exact ⟨0, by simp [drainInboxGo, hr], by simp [drainInboxGo, hr, List.range'],
        by simp [drainInboxGo, hr, List.range'], by simp [drainInboxGo, hr],
        by simpa [drainInboxGo, hr] using hib, by simp [drainInboxGo, hr]⟩
    | some entry =>
      obtain ⟨⟨b, cc⟩, ib2⟩ := entry
      obtain ⟨hb, hth, hib2, _⟩ :=
        inbox_remove_spec start_sequencing ib c hib b cc ib2 hr
      obtain ⟨k, hk1, hk2, hk3, hk4, hk5, hk6⟩ := ih ib2 (c + 1) hib2
      refine ⟨k + 1, ?_, ?_, ?_, ?_, ?_, ?_⟩
      · simp only [drainInboxGo, hr, hk1]
        omega
      · simp only [drainInboxGo, hr, List.map_cons, hb, hk2]
        rfl
      · simp only [drainInboxGo, hr, List.map_cons, hk3]
        rfl
      · simp only [drainInboxGo, hr, List.length_cons, hk4]
      · simpa only [drainInboxGo, hr] using hk5
      · intro p hp
        simp only [drainInboxGo, hr, List.mem_cons] at hp
        rcases hp with rfl | hp
        · exact hth
        · exact hk6 p hp

theorem stdHeights_append (a b : List PipelineCommand) :
    stdHeights (a ++ b) = stdHeights a ++ stdHeights b := by
  simp [stdHeights]

theorem range'_append_aux (c m n : Nat) :
    List.range' c m ++ List.range' (c + m) n = List.range' c (m + n) := by
  induction m generalizing c with
  | zero => simp
  | succ m ihm =>
    have hmn : m + 1 + n = (m + n) + 1 := by omega
    rw [hmn]
    have h1 : List.range' c (m + 1) = c :: List.range' (c + 1) m := rfl
    have h2 : List.range' c ((m + n) + 1) = c :: List.range' (c + 1) (m + n) := rfl
    rw [h1, h2, List.cons_append]
    have h3 : c + (m + 1) = (c + 1) + m := by omega
    rw [h3, ihm (c + 1)]

theorem dispatcherEmitInOrder_spec (start_sequencing end_block : Nat)
    (cmds1 : List PipelineCommand) (s2 : DispatcherState)
    (hwf : Inbox.wf start_sequencing s2.inbox)
    (h1 : stdHeights cmds1 = [])
    (h2 : ∀ cmd ∈ cmds1, cmdOk start_sequencing cmd) :
    stdHeights (dispatcherEmitInOrder end_block cmds1 s2).1 =
      List.range' s2.cursor
        ((dispatcherEmitInOrder end_block cmds1 s2).2.cursor - s2.cursor) ∧
    s2.cursor ≤ (dispatcherEmitInOrder end_block cmds1 s2).2.cursor ∧
    Inbox.wf start_sequencing (dispatcherEmitInOrder end_block cmds1 s2).2.inbox ∧
    (∀ cmd ∈ (dispatcherEmitInOrder end_block cmds1 s2).1,
      cmdOk start_sequencing cmd) := by
  by_cases hie : s2.inbox.isEmpty
  · simp only [dispatcherEmitInOrder, hie, if_true]
    exact ⟨by simp [h1], le_refl _, hwf, h2⟩
  · obtain ⟨k, hd1, hd2, hd3, hd4, hd5, hd6⟩ :=
      drainInboxGo_spec start_sequencing s2.inbox.length s2.inbox s2.cursor hwf
    rw [Bool.not_eq_true] at hie
    simp only [dispatcherEmitInOrder, hie, Bool.false_eq_true, if_false, drainInbox]
    by_cases hke : (drainInboxGo s2.inbox.length s2.inbox s2.cursor).2.1.isEmpty
    · have hk0 : k = 0 := by
        rw [List.isEmpty_iff] at hke
        rw [← hd4, hke]
        rfl
      refine ⟨?_, ?_, ?_, ?_⟩
      · simp only [hke, if_true, apply_ite DispatcherState.cursor, ite_self,
          h1, hd1, hk0, Nat.add_zero, Nat.sub_self, List.range'_zero]
      · simp only [apply_ite DispatcherState.cursor, ite_self, hd1]
        omega
      · simp only [apply_ite DispatcherState.inbox, ite_self]
        exact hd5
      · intro cmd hcmd
        simp only [hke, if_true] at hcmd
        exact h2 cmd hcmd
    · rw [Bool.not_eq_true] at hke
      refine ⟨?_, ?_, ?_, ?_⟩
      · simp only [hke, Bool.false_eq_true, if_false, stdHeights_append, h1,
          List.nil_append, apply_ite DispatcherState.cursor, ite_self, hd1,
          Nat.add_sub_cancel_left]
        simp [stdHeights, cmdStdHeights, hd2]
      · simp only [apply_ite DispatcherState.cursor, ite_self, hd1]
        omega
      · simp only [apply_ite DispatcherState.inbox, ite_self]
        exact hd5
      · intro cmd hcmd
        simp only [hke, Bool.false_eq_true, if_false, List.mem_append,
          List.mem_singleton] at hcmd
        rcases hcmd with hcmd | rfl
        · exact h2 cmd hcmd
        · constructor
          · intro h hh hlt
            simp only [cmdCompactHeights, List.mem_map] at hh
            obtain ⟨p, hp, rfl⟩ := hh
            exact absurd (hd6 p hp) (by omega)
          · exact Or.inr ⟨s2.cursor, k, by simp [cmdStdHeights, hd2]⟩

theorem dispatcherHandleBatch_spec (start_sequencing total end_block : Nat)
    (s : DispatcherState) (batch : List PipelineMsg)
    (hwf : Inbox.wf start_sequencing s.inbox)
    (hbw : ∀ m ∈ batch, m.fromWorker start_sequencing) :
    stdHeights (dispatcherHandleBatch total end_block s batch).1 =
      List.range' s.cursor
        ((dispatcherHandleBatch total end_block s batch).2.cursor - s.cursor) ∧
    s.cursor ≤ (dispatcherHandleBatch total end_block s batch).2.cursor ∧
    Inbox.wf start_sequencing (dispatcherHandleBatch total end_block s batch).2.inbox ∧
    (∀ cmd ∈ (dispatcherHandleBatch total end_block s batch).1,
      cmdOk start_sequencing cmd) := by
  have hs1i : (if s.processed = total then { s with stop := true } else s).inbox
      = s.inbox := by
    by_cases h : s.processed = total <;> simp [h]
  have hs1c : (if s.processed = total then { s with stop := true } else s).cursor
      = s.cursor := by
    by_cases h : s.processed = total <;> simp [h]
  by_cases hbe : batch.isEmpty
  · simp only [dispatcherHandleBatch, hbe, if_true]
    refine ⟨?_, ?_, ?_, ?_⟩
    · simp [stdHeights, hs1c]
    · simp [hs1c]
    · rw [hs1i]; exact hwf
    · intro cmd hcmd; simp at hcmd
  · rw [Bool.not_eq_true] at hbe
    simp only [dispatcherHandleBatch, hbe, Bool.false_eq_true, if_false]
    have hinbox2 : Inbox.wf start_sequencing (batch.foldl
        (fun ib m => match m.std with
          | some b => ib.insert m.height b m.compact
          | none => ib)
        (if s.processed = total then { s with stop := true } else s).inbox) := by
      apply inbox_wf_foldl_insert
      · rw [hs1i]; exact hwf
      · exact hbw
    by_cases ho : ((batch.filter (fun m => m.std.isNone)).map
        (fun m => (m.height, m.compact))).isEmpty
    · simp only [ho, if_true]
      have hsp := dispatcherEmitInOrder_spec start_sequencing end_block []
        { inbox := (batch.foldl
            (fun ib m => match m.std with
              | some b => ib.insert m.height b m.compact
              | none => ib)
            (if s.processed = total then { s with stop := true } else s).inbox),
          cursor := (if s.processed = total then { s with stop := true } else s).cursor,
          processed := (if s.processed = total then { s with stop := true } else s).processed,
          stop := (if s.processed = total then { s with stop := true } else s).stop }
        (by simpa using hinbox2) (by simp [stdHeights])
        (by intro cmd hcmd; simp at hcmd)
      simpa [hs1c] using hsp
    · rw [Bool.not_eq_true] at ho
      simp only [ho, Bool.false_eq_true, if_false]
      have hsp := dispatcherEmitInOrder_spec start_sequencing end_block
        [PipelineCommand.processBlocks
          ((batch.filter (fun m => m.std.isNone)).map
            (fun m => (m.height, m.compact))) []]
        { inbox := (batch.foldl
            (fun ib m => match m.std with
              | some b => ib.insert m.height b m.compact
              | none => ib)
            (if s.processed = total then { s with stop := true } else s).inbox),
          cursor := (if s.processed = total then { s with stop := true } else s).cursor,
          processed := (if s.processed = total then { s with stop := true } else s).processed
            + ((batch.filter (fun m => m.std.isNone)).map
                (fun m => (m.height, m.compact))).length,
          stop := (if s.processed = total then { s with stop := true } else s).stop }
        (by simpa using hinbox2)
        (by simp [stdHeights, cmdStdHeights])
        (by
          intro cmd hcmd
          simp only [List.mem_singleton] at hcmd
          subst hcmd
          refine ⟨by simp [cmdStdHeights], Or.inl (by simp [cmdStdHeights])⟩)
      simpa [hs1c] using hsp

theorem dispatcherIter_spec (start_sequencing total end_block : Nat)
    (s : DispatcherState) (q : List (Option PipelineMsg))
    (hwf : Inbox.wf start_sequencing s.inbox) (hq : QueueWf start_sequencing q) :
    stdHeights (dispatcherIter total end_block s q).1 =
      List.range' s.cursor
        ((dispatcherIter total end_block s q).2.1.cursor - s.cursor) ∧
    s.cursor ≤ (dispatcherIter total end_block s q).2.1.cursor ∧
    Inbox.wf start_sequencing (dispatcherIter total end_block s q).2.1.inbox ∧
    QueueWf start_sequencing (dispatcherIter total end_block s q).2.2.1 ∧
    (∀ cmd ∈ (dispatcherIter total end_block s q).1, cmdOk start_sequencing cmd) := by
  by_cases hstop : s.stop
  · refine ⟨?_, by simp [dispatcherIter, hstop], ?_, ?_, ?_⟩
    · simp [dispatcherIter, hstop, stdHeights, cmdStdHeights]
    · simpa [dispatcherIter, hstop] using hwf
    · simpa [dispatcherIter, hstop] using hq
    · intro cmd hcmd
      simp only [dispatcherIter, hstop, if_true, List.mem_singleton] at hcmd
      subst hcmd
      exact ⟨by simp [cmdCompactHeights], Or.inl (by simp [cmdStdHeights])⟩
  · rw [Bool.not_eq_true] at hstop
    obtain ⟨_, hdq2, hdq3⟩ := dequeueBatchGo_spec q [] (by simp)
    have hbatchW : ∀ m ∈ (dequeueBatch q).1, m.fromWorker start_sequencing := by
      intro m hm
      rcases hdq2 m hm with hmem | hmem
      · simp at hmem
      · exact hq m hmem
    obtain ⟨hb1, hb2, hb3, hb4⟩ := dispatcherHandleBatch_spec start_sequencing
      total end_block s (dequeueBatch q).1 hwf hbatchW
    refine ⟨?_, ?_, ?_, ?_, ?_⟩
    · simpa [dispatcherIter, hstop, Bool.false_eq_true] using hb1
    · simpa [dispatcherIter, hstop, Bool.false_eq_true] using hb2
    · simpa [dispatcherIter, hstop, Bool.false_eq_true] using hb3
    · simp only [dispatcherIter, hstop, Bool.false_eq_true, if_false]
      intro m hm
      exact hq m (hdq3 _ hm)
    · intro cmd hcmd
      simp only [dispatcherIter, hstop, Bool.false_eq_true, if_false] at hcmd
      exact hb4 cmd hcmd

theorem dispatcherRun_spec (start_sequencing total end_block : Nat) :
    ∀ (fuel : Nat) (s : DispatcherState) (q : List (Option PipelineMsg)),
    Inbox.wf start_sequencing s.inbox → QueueWf start_sequencing q →
    stdHeights (dispatcherRun total end_block fuel s q).1 =
      List.range' s.cursor
        ((dispatcherRun total end_block fuel s q).2.cursor - s.cursor) ∧
    s.cursor ≤ (dispatcherRun total end_block fuel s q).2.cursor ∧
    (∀ cmd ∈ (dispatcherRun total end_block fuel s q).1,
      cmdOk start_sequencing cmd) := by
  intro fuel
  induction fuel with
  | zero =>
    intro s q _ _
    refine ⟨by simp [dispatcherRun, stdHeights], by simp [dispatcherRun], ?_⟩
    intro cmd hcmd
    simp [dispatcherRun] at hcmd
  | succ fuel ih =>
    intro s q hwf hq
    obtain ⟨hi1, hi2, hi3, hi4, hi5⟩ :=
      dispatcherIter_spec start_sequencing total end_block s q hwf hq
    by_cases hhalt : (dispatcherIter total end_block s q).2.2.2
    · refine ⟨?_, ?_, ?_⟩
      · simpa [dispatcherRun, hhalt] using hi1
      · simpa [dispatcherRun, hhalt] using hi2
      · intro cmd hcmd
        simp only [dispatcherRun, hhalt, if_true] at hcmd
        exact hi5 cmd hcmd
    · rw [Bool.not_eq_true] at hhalt
      obtain ⟨hr1, hr2, hr3⟩ := ih (dispatcherIter total end_block s q).2.1
        (dispatcherIter total end_block s q).2.2.1 hi3 hi4
      refine ⟨?_, ?_, ?_⟩
      · simp only [dispatcherRun, hhalt, Bool.false_eq_true, if_false,
          stdHeights_append, hi1, hr1]
        have e1 : List.range' (dispatcherIter total end_block s q).2.1.cursor
            ((dispatcherRun total end_block fuel (dispatcherIter total end_block s q).2.1
              (dispatcherIter total end_block s q).2.2.1).2.cursor -
              (dispatcherIter total end_block s q).2.1.cursor) =
            List.range'
              (s.cursor + ((dispatcherIter total end_block s q).2.1.cursor - s.cursor))
              ((dispatcherRun total end_block fuel (dispatcherIter total end_block s q).2.1
                (dispatcherIter total end_block s q).2.2.1).2.cursor -
                (dispatcherIter total end_block s q).2.1.cursor) := by
          congr 1
          omega
        rw [e1, range'_append_aux]
        congr 1
        omega
      · simp only [dispatcherRun, hhalt, Bool.false_eq_true, if_false]
        omega
      · intro cmd hcmd
        simp only [dispatcherRun, hhalt, Bool.false_eq_true, if_false,
          List.mem_append] at hcmd
        rcases hcmd with hcmd | hcmd
        · exact hi5 cmd hcmd
        · exact hr3 cmd hcmd

/-- C5: over any run of the dispatcher, the standardized blocks carried by
`ProcessBlocks` commands are exactly the consecutive, strictly ascending
height range continuing from the dispatcher cursor, which is initialized to
`max(start_sequencing_blocks_at_height, start_block)`; any single command's
standardized list is one consecutive range; a command holding any
below-threshold compact block (those the workers leave unstandardized, hence
possibly out of order) carries no standardized blocks; and each dequeued
batch holds at most 10,000 messages. -/
theorem bitcoind_download_blocks_dispatch_spec
    (start_sequencing start_block total end_block fuel : Nat)
    (q : List (Option PipelineMsg)) (s : DispatcherState)
    (hq : QueueWf start_sequencing q) (hs : Inbox.wf start_sequencing s.inbox) :
    dispatcherInitCursor start_sequencing start_block =
      Nat.max start_sequencing start_block ∧
    (∀ height compact : Nat,
      (workerMessage start_sequencing height compact).fromWorker start_sequencing ∧
      ((workerMessage start_sequencing height compact).std = none ↔
        height < start_sequencing)) ∧
    (dequeueBatch q).1.length ≤ 10000 ∧
    stdHeights (dispatcherRun total end_block fuel s q).1 =
      List.range' s.cursor
        ((dispatcherRun total end_block fuel s q).2.cursor - s.cursor) ∧
    s.cursor ≤ (dispatcherRun total end_block fuel s q).2.cursor ∧
    (∀ cmd ∈ (dispatcherRun total end_block fuel s q).1,
      (∀ h ∈ cmdCompactHeights cmd, h < start_sequencing →
        cmdStdHeights cmd = []) ∧
      (cmdStdHeights cmd = [] ∨ ∃ a k, cmdStdHeights cmd = List.range' a k)) := by
  obtain ⟨hr1, hr2, hr3⟩ :=
    dispatcherRun_spec start_sequencing total end_block fuel s q hs hq
  refine ⟨rfl, ?_, dequeueBatch_length_le q, hr1, hr2, hr3⟩
  intro height compact
  constructor
  · rfl
  · unfold workerMessage
    by_cases h : start_sequencing ≤ height
    · simp [h]
    · simp only [h, if_false]
      constructor
      · intro _
        omega
      · intro _
        trivial

/-- Witness for C5: threshold 5, heights 3 (compact-only), then 5 and 6. -/
theorem bitcoind_download_blocks_dispatch_spec_witness :
    let q := [some (workerMessage 5 3 30), some (workerMessage 5 5 50),
              some (workerMessage 5 6 60)]
    let s : DispatcherState :=
      { inbox := [], cursor := dispatcherInitCursor 5 3, processed := 0,
        stop := false }
    dispatcherInitCursor 5 3 = 5 ∧
    stdHeights (dispatcherRun 3 6 2 s q).1 =
      List.range' 5 ((dispatcherRun 3 6 2 s q).2.cursor - 5) ∧
    (∀ cmd ∈ (dispatcherRun 3 6 2 s q).1,
      (∀ h ∈ cmdCompactHeights cmd, h < 5 → cmdStdHeights cmd = []) ∧
      (cmdStdHeights cmd = [] ∨ ∃ a k, cmdStdHeights cmd = List.range' a k)) := by
  intro q s
  have hq : QueueWf 5 q := by
    intro m hm
    simp only [q, List.mem_cons, List.not_mem_nil, or_false] at hm
    rcases hm with hm | hm | hm <;>
      · injection hm with hh
        subst hh
        rfl
  have hs : Inbox.wf 5 s.inbox := by
    intro e he
    simp [s] at he
  obtain ⟨h1, _, _, h4, _, h6⟩ :=
    bitcoind_download_blocks_dispatch_spec 5 3 3 6 2 q s hq hs
  exact ⟨by decide, h4, h6⟩

theorem brc20IndexGo_no_parsed_reveal (ver : Brc20Verifier) :
    ∀ (ops : List Brc20Op) (buffered : List Brc20Transfer),
    (∀ op ∈ ops, isParsedRevealB op = false) →
    brc20IndexGo ver ops buffered =
      index_unverified_brc20_transfers ver (buffered ++ transfersOf ops) := by
  intro ops
  induction ops with
  | nil => intro buffered _; simp [brc20IndexGo, transfersOf]
  | cons op rest ih =>
    intro buffered hnone
    match op with
    | .reveal id true =>
      exact absurd (hnone _ (List.mem_cons_self _ _)) (by simp [isParsedRevealB])
    | .reveal id false =>
      simp only [brc20IndexGo, transfersOf]
      exact ih buffered (fun x hx => hnone x (List.mem_cons_of_mem _ hx))
    | .transfer t =>
      simp only [brc20IndexGo, transfersOf]
      rw [ih (buffered ++ [t]) (fun x hx => hnone x (List.mem_cons_of_mem _ hx))]
      simp

theorem brc20IndexGo_phase (ver : Brc20Verifier) :
    ∀ (pre : List Brc20Op) (id : String) (rest : List Brc20Op)
      (buffered : List Brc20Transfer),
    (∀ op ∈ pre, isParsedRevealB op = false) →
    brc20IndexGo ver (pre ++ .reveal id true :: rest) buffered =
      index_unverified_brc20_transfers ver (buffered ++ transfersOf pre) ++
        .verifyReveal id :: brc20IndexGo ver rest [] := by
  intro pre
  induction pre with
  | nil =>
    intro id rest buffered _
    simp [brc20IndexGo, transfersOf]
  | cons op pre2 ih =>
    intro id rest buffered hnone
    match op with
    | .reveal id2 true =>
      exact absurd (hnone _ (List.mem_cons_self _ _)) (by simp [isParsedRevealB])
    | .reveal id2 false =>
      simp only [List.cons_append, brc20IndexGo, transfersOf]
      exact ih id rest buffered (fun x hx => hnone x (List.mem_cons_of_mem _ hx))
    | .transfer t =>
      simp only [List.cons_append, brc20IndexGo, transfersOf, List.append_eq]
      rw [ih id rest (buffered ++ [t]) (fun x hx => hnone x (List.mem_cons_of_mem _ hx))]
      simp

theorem index_unverified_sorted (ver : Brc20Verifier)
    (buffered : List Brc20Transfer) :
    ((ver buffered).mergeSort
      (fun a b => decide (a.tx_index ≤ b.tx_index))).Pairwise
        (fun a b => a.tx_index ≤ b.tx_index) := by
  have hs := @List.sorted_mergeSort Brc20Transfer
    (fun (a b : Brc20Transfer) => decide (a.tx_index ≤ b.tx_index))
    (by intro a b c hab hbc; simp only [decide_eq_true_eq] at *; omega)
    (by intro a b; simp only [Bool.or_eq_true, decide_eq_true_eq]; omega)
    (ver buffered)
  exact hs.imp (by intro a b h; simpa using h)

/-- C6: in `index_block_and_insert_brc20_operations`, whenever a reveal with
a parsed BRC-20 operation is reached, all transfers buffered since the last
flush are verified and applied before that reveal's operation is verified;
transfers still buffered after the last operation are flushed at the end;
and within each flush the verified transfer-sends are applied in ascending
`tx_index` order.  Stated for every abstract verifier, every block operation
stream and every buffer state. -/
theorem index_block_brc20_flush_spec (ver : Brc20Verifier) :
    (∀ (ops : List Brc20Op), index_block_brc20_trace ver ops = brc20IndexGo ver ops []) ∧
    (∀ (pre : List Brc20Op) (id : String) (rest : List Brc20Op)
        (buffered : List Brc20Transfer),
      (∀ op ∈ pre, isParsedRevealB op = false) →
      brc20IndexGo ver (pre ++ .reveal id true :: rest) buffered =
        index_unverified_brc20_transfers ver (buffered ++ transfersOf pre) ++
          .verifyReveal id :: brc20IndexGo ver rest []) ∧
    (∀ (ops : List Brc20Op) (buffered : List Brc20Transfer),
      (∀ op ∈ ops, isParsedRevealB op = false) →
      brc20IndexGo ver ops buffered =
        index_unverified_brc20_transfers ver (buffered ++ transfersOf ops)) ∧
    (∀ buffered : List Brc20Transfer,
      ((ver buffered).mergeSort
        (fun a b => decide (a.tx_index ≤ b.tx_index))).Pairwise
          (fun a b => a.tx_index ≤ b.tx_index)) :=
  ⟨fun _ => rfl, brc20IndexGo_phase ver, brc20IndexGo_no_parsed_reveal ver,
    index_unverified_sorted ver⟩

/-- Witness for C6: identity verifier, one transfer buffered before a parsed
reveal, one dangling transfer at the end. -/
theorem index_block_brc20_flush_spec_witness :
    let ver : Brc20Verifier := fun l => l
    let t1 : Brc20Transfer := { tx_index := 1, payload := 11 }
    let t2 : Brc20Transfer := { tx_index := 3, payload := 33 }
    brc20IndexGo ver [.transfer t1, .reveal "abi0" true, .transfer t2] [] =
      [.applyTransferSend t1, .verifyReveal "abi0", .applyTransferSend t2] ∧
    ((ver [t2, t1]).mergeSort
      (fun a b => decide (a.tx_index ≤ b.tx_index))).Pairwise
        (fun a b => a.tx_index ≤ b.tx_index) := by
  intro ver t1 t2
  constructor
  · have hp := (index_block_brc20_flush_spec ver).2.1 [.transfer t1] "abi0"
      [.transfer t2] [] (by intro op hop; simp at hop; simp [hop, isParsedRevealB])
    have hlast := (index_block_brc20_flush_spec ver).2.2.1 [.transfer t2] []
      (by intro op hop; simp at hop; simp [hop, isParsedRevealB])
    rw [hlast] at hp
    simp only [List.cons_append, List.nil_append] at hp
    rw [hp]
    simp [ver, index_unverified_brc20_transfers, transfersOf,
      List.mergeSort_singleton]
  · exact (index_block_brc20_flush_spec ver).2.2.2 [t2, t1]

/-- C8: in the ZMQ run loop, whenever a downloaded block's header cannot be
processed by the fork scratch pad, the loop pushes the block's hash back
onto the front of the pending queue with the parent's hash in front of it
(after sending the standardize command); and in the 2-deep-reorg scenario
where only the new tip D2 is announced, iterating this until
`can_process_header` succeeds makes the loop fetch B2 and C2 and emit the
single chain event `ChainUpdatedWithReorg` rolling back [B1, C1] and
applying [B2, C2, D2]. -/
theorem zmq_runloop_reorg_spec :
    (∀ (fetch : String → Option ZHeader) (fuel : Nat) (pad : ForkScratchPad)
        (hash : String) (rest : List String) (out : List ZmqEmit) (hd : ZHeader),
      fetch hash = some hd → pad.canProcessHeader hd = false →
      zmqDrainLoop fetch (fuel + 1) pad (hash :: rest) out =
        zmqDrainLoop fetch fuel pad (hd.parent :: hash :: rest)
          (out ++ [ZmqEmit.standardize hash])) ∧
    propagatedEvents (zmqDrainLoop zmqScenarioFetch 12 zmqScenarioPad ["d2"] []).2 =
      [ChainEvent.reorg [zmqHdrB1, zmqHdrC1] [zmqHdrB2, zmqHdrC2, zmqHdrD2] []] := by
  constructor
  · intro fetch fuel pad hash rest out hd hfetch hcant
    simp [zmqDrainLoop, hfetch, hcant]
  · rfl

theorem charm_index_inj : ∀ c d : Charm, c.index = d.index ↔ c = d := by
  decide

theorem charm_isSet_zero (c : Charm) : Charm.isSet c 0 = false := by
  simp [Charm.isSet, Nat.zero_testBit]

theorem charm_isSet_set (c d : Charm) (m : Nat) :
    Charm.isSet c (Charm.set d m) = (Charm.isSet c m || decide (c = d)) := by
  unfold Charm.isSet Charm.set
  rw [Nat.testBit_or, Nat.one_shiftLeft, Nat.testBit_two_pow]
  congr 1
  rw [decide_eq_decide]
  rw [charm_index_inj d c]
  constructor
  · intro hh; exact hh.symm
  · intro hh; exact hh.symm

theorem charm_isSet_or (c : Charm) (a b : Nat) :
    Charm.isSet c (a ||| b) = (Charm.isSet c a || Charm.isSet c b) := by
  simp [Charm.isSet, Nat.testBit_or]

theorem charmsOfList_isSet (c : Charm) :
    ∀ cs : List Charm, Charm.isSet c (charmsOfList cs) = decide (c ∈ cs) := by
  intro cs
  induction cs with
  | nil => simp [charmsOfList, charm_isSet_zero]
  | cons d rest ih =>
    simp only [charmsOfList, List.foldr_cons] at *
    rw [charm_isSet_set, ih]
    by_cases h : c = d
    · simp [h]
    · simp [h]

theorem sat_charm_list_sub (n : Nat) :
    ∀ c ∈ sat_charm_list n,
      c ∈ [Charm.coin, Charm.mythic, Charm.legendary, Charm.epic, Charm.rare,
        Charm.uncommon, Charm.palindrome] := by
  intro c hc
  unfold sat_charm_list at hc
  simp only [List.mem_append] at hc
  rcases hc with (hc | hc) | hc <;> split_ifs at hc <;> simp_all

theorem sat_charms_status_free (n : Nat) (c : Charm)
    (hc : c = .cursed ∨ c = .vindicated ∨ c = .reinscription ∨ c = .unbound ∨
      c = .burned ∨ c = .lost) :
    Charm.isSet c (sat_charms n) = false := by
  unfold sat_charms
  rw [charmsOfList_isSet]
  have hnot : c ∉ sat_charm_list n := by
    intro hmem
    have hin := sat_charm_list_sub n c hmem
    rcases hc with rfl | rfl | rfl | rfl | rfl | rfl <;> simp at hin
  simp [hnot]

theorem sat_charms_cursed_free (n : Nat) :
    Charm.isSet .cursed (sat_charms n) = false :=
  sat_charms_status_free n _ (Or.inl rfl)

theorem sat_charms_vindicated_free (n : Nat) :
    Charm.isSet .vindicated (sat_charms n) = false :=
  sat_charms_status_free n _ (Or.inr (Or.inl rfl))

theorem cursor_increment_unbound_eq (c : SequenceCursor) (b : Bool) :
    (c.increment b).unbound = c.unbound := by
  unfold SequenceCursor.increment
  by_cases hb : b = true <;> simp [hb]

theorem nextUnboundAfter_zero (u : Option Int) :
    nextUnboundAfter u 0 = nextUnbound u := by
  cases u <;> simp [nextUnboundAfter, nextUnbound]

theorem nextUnboundAfter_succ (u : Option Int) (k : Nat) :
    nextUnboundAfter (some (nextUnbound u)) k = nextUnboundAfter u (k + 1) := by
  cases u with
  | none => simp [nextUnboundAfter, nextUnbound]; ring
  | some v => simp [nextUnboundAfter, nextUnbound]; ring

theorem opAt_setOp_ne (txs : List SeqTx) (i j i2 j2 : Nat)
    (op : OrdinalOperation) (hne : (i, j) ≠ (i2, j2)) :
    opAt (setOp txs i j op) i2 j2 = opAt txs i2 j2 := by
  unfold setOp
  cases hget : txs[i]? with
  | none => simp
  | some tx =>
    have hlen : i < txs.length := by
      by_contra hge
      rw [List.getElem?_eq_none (by omega)] at hget
      exact absurd hget (by simp)
    simp only [Option.map_some', Option.getD_some]
    by_cases hii : i = i2
    · subst hii
      have hjj : j ≠ j2 := fun hh => hne (by rw [hh])
      unfold opAt
      rw [List.getElem?_set_self hlen, hget]
      simp only [Option.some_bind]
      rw [List.getElem?_set_ne hjj]
    · unfold opAt
      rw [List.getElem?_set_ne hii]

theorem opAt_setOp_eq (txs : List SeqTx) (i j : Nat) (op op0 : OrdinalOperation)
    (h : opAt txs i j = some op0) :
    opAt (setOp txs i j op) i j = some op := by
  unfold opAt at h
  cases hget : txs[i]? with
  | none => rw [hget] at h; exact absurd h (by simp)
  | some tx =>
    rw [hget] at h
    simp only [Option.some_bind] at h
    have hlen : i < txs.length := by
      by_contra hge
      rw [List.getElem?_eq_none (by omega)] at hget
      exact absurd hget (by simp)
    have hjlen : j < tx.ordinal_operations.length := by
      by_contra hge
      rw [List.getElem?_eq_none (by omega)] at h
      exact absurd h (by simp)
    unfold setOp opAt
    rw [hget]
    simp only [Option.map_some', Option.getD_some]
    rw [List.getElem?_set_self hlen]
    simp only [Option.some_bind]
    exact List.getElem?_set_self hjlen

theorem increment_unbound_snd_unbound (c : SequenceCursor) :
    (c.increment_unbound).2.unbound = some (nextUnbound c.unbound) := rfl

theorem increment_unbound_fst (c : SequenceCursor) :
    (c.increment_unbound).1 = nextUnbound c.unbound := rfl

theorem drain_unbound_untouched (bh : Nat) (nw : Network) :
    ∀ (queue : List (Nat × Nat)) (txs : List SeqTx) (cur : SequenceCursor)
      (i j : Nat), (i, j) ∉ queue →
    opAt (drain_unbound bh nw queue txs cur).1 i j = opAt txs i j := by
  intro queue
  induction queue with
  | nil => intro txs cur i j _; rfl
  | cons e rest ih =>
    intro txs cur i j hnotin
    obtain ⟨a, b⟩ := e
    have hne : (a, b) ≠ (i, j) := fun hh => hnotin (hh ▸ List.mem_cons_self _ _)
    have hrest : (i, j) ∉ rest := fun hh => hnotin (List.mem_cons_of_mem _ hh)
    cases hop : opAt txs a b with
    | none =>
      simp only [drain_unbound, hop]
      exact ih txs cur i j hrest
    | some op =>
      cases op with
      | inscriptionTransferred t =>
        simp only [drain_unbound, hop]
        exact ih txs cur i j hrest
      | inscriptionRevealed insc =>
        simp only [drain_unbound, hop]
        rw [ih _ _ i j hrest]
        exact opAt_setOp_ne txs a b i j _ hne

theorem drain_unbound_assigns (bh : Nat) (nw : Network) :
    ∀ (queue : List (Nat × Nat)) (txs : List SeqTx) (cur : SequenceCursor),
    queue.Nodup →
    (∀ e ∈ queue, ∃ d, opAt txs e.1 e.2 = some (.inscriptionRevealed d)) →
    ∀ (k : Nat) (ab : Nat × Nat), queue[k]? = some ab →
      ∃ d, opAt (drain_unbound bh nw queue txs cur).1 ab.1 ab.2 =
            some (.inscriptionRevealed d) ∧
        d.unbound_sequence = some (nextUnboundAfter cur.unbound k) ∧
        d.satpoint_post_inscription = UNBOUND_INSCRIPTION_SATPOINT ++ ":" ++
          toString (nextUnboundAfter cur.unbound k) ∧
        d.ordinal_offset = (nextUnboundAfter cur.unbound k).toNat := by
  intro queue
  induction queue with
  | nil => intro txs cur _ _ k ab hab; simp at hab
  | cons e rest ih =>
    intro txs cur hnd hrev k ab hab
    obtain ⟨a, b⟩ := e
    obtain ⟨d0, hd0⟩ := hrev (a, b) (List.mem_cons_self _ _)
    have hab_rest : (a, b) ∉ rest := (List.nodup_cons.mp hnd).1
    have hnd_rest : rest.Nodup := (List.nodup_cons.mp hnd).2
    simp only [drain_unbound, hd0]
    match k with
    | 0 =>
      have hab2 : ab = (a, b) := by
        simp only [List.getElem?_cons_zero, Option.some.injEq] at hab
        exact hab.symm
      subst hab2
      refine ⟨{ d0 with
          inscription_number := cur.pick_next d0.curse_type.isSome bh nw,
          satpoint_post_inscription := UNBOUND_INSCRIPTION_SATPOINT ++ ":" ++
            toString ((cur.increment d0.curse_type.isSome).increment_unbound).1,
          ordinal_offset :=
            (((cur.increment d0.curse_type.isSome).increment_unbound).1).toNat,
          unbound_sequence :=
            some ((cur.increment d0.curse_type.isSome).increment_unbound).1 },
        ?_, ?_, ?_, ?_⟩
      · rw [drain_unbound_untouched bh nw rest _ _ a b hab_rest]
        exact opAt_setOp_eq txs a b _ _ hd0
      · simp only [increment_unbound_fst, cursor_increment_unbound_eq,
          nextUnboundAfter_zero]
      · simp only [increment_unbound_fst, cursor_increment_unbound_eq,
          nextUnboundAfter_zero]
      · simp only [increment_unbound_fst, cursor_increment_unbound_eq,
          nextUnboundAfter_zero]
    | k + 1 =>
      have hab3 : rest[k]? = some ab := by
        simpa only [List.getElem?_cons_succ] using hab
      have hrev2 : ∀ e ∈ rest, ∃ d,
          opAt (setOp txs a b (.inscriptionRevealed
            { d0 with
              inscription_number := cur.pick_next d0.curse_type.isSome bh nw,
              satpoint_post_inscription := UNBOUND_INSCRIPTION_SATPOINT ++ ":" ++
                toString ((cur.increment d0.curse_type.isSome).increment_unbound).1,
              ordinal_offset :=
                (((cur.increment d0.curse_type.isSome).increment_unbound).1).toNat,
              unbound_sequence :=
                some ((cur.increment d0.curse_type.isSome).increment_unbound).1 }))
            e.1 e.2 = some (.inscriptionRevealed d) := by
        intro e2 he2
        obtain ⟨d2, hd2⟩ := hrev e2 (List.mem_cons_of_mem _ he2)
        refine ⟨d2, ?_⟩
        rw [opAt_setOp_ne txs a b e2.1 e2.2 _ ?_]
        · exact hd2
        · intro hh
          rw [hh] at hab_rest
          exact hab_rest (by
            have he3 : e2 = (e2.1, e2.2) := rfl
            rw [← he3]
            exact he2)
      obtain ⟨d, hd, hu, hs, ho⟩ := ih _ _ hnd_rest hrev2 k ab hab3
      refine ⟨d, hd, ?_, ?_, ?_⟩
      · rw [hu]
        congr 1
        rw [increment_unbound_snd_unbound, cursor_increment_unbound_eq,
          nextUnboundAfter_succ]
      · rw [hs]
        rw [increment_unbound_snd_unbound, cursor_increment_unbound_eq,
          nextUnboundAfter_succ]
      · rw [ho]
        rw [increment_unbound_snd_unbound, cursor_increment_unbound_eq,
          nextUnboundAfter_succ]

/-- C2: a reveal whose post-transfer destination is `SpentInFees` is not
numbered in place: the cursor and the reinscriptions map are left untouched
and the reveal is queued on the unbound queue with the Unbound charm set;
the block update drains that queue after all transactions; and the drain
assigns each entry its inscription number from the cursor, then a fresh
unbound sequence number (consecutive from the cursor's high-water mark),
pointing `satpoint_post_inscription` at the all-zeros sentinel followed by
that sequence and setting `ordinal_offset` to the same value. -/
theorem unbound_inscriptions_spec (dec : ScriptDecoder)
    (lookup : TraversalLookup) (bh : Nat) (nw : Network) :
    (∀ (tx : SeqTx) (tx_index op_index : Nat) (st : SeqState) (subindex : Nat)
        (insc : RevealData) (tr : TraversalResult),
      lookup tx.tx.txid (resolveRevealTarget tx insc).1
          (resolveRevealTarget tx insc).2 = some tr →
      (compute_satpoint_post_transfer dec tx.tx (resolveRevealTarget tx insc).1
          (resolveRevealTarget tx insc).2).1 = .spentInFees →
      ∃ insc2, update_reveal dec lookup bh nw tx tx_index op_index st subindex insc =
          .ok (insc2,
            { st with sats_overflows := st.sats_overflows ++ [(tx_index, op_index)] },
            subindex + 1) ∧
        Charm.isSet .unbound insc2.charms = true) ∧
    (∀ (txs : List SeqTx) (cursor : SequenceCursor) (reins : List (Nat × String))
        (txs2 : List SeqTx) (st : SeqState),
      update_block_txs dec lookup bh nw txs 0
          { cursor := cursor, reinscriptions := reins, sats_overflows := [] } =
        .ok (txs2, st) →
      update_block_inscriptions dec lookup bh nw txs cursor reins =
        .ok (drain_unbound bh nw st.sats_overflows txs2 st.cursor)) ∧
    (∀ (i j : Nat) (rest : List (Nat × Nat)) (txs : List SeqTx)
        (cur : SequenceCursor) (insc : RevealData),
      opAt txs i j = some (.inscriptionRevealed insc) →
      drain_unbound bh nw ((i, j) :: rest) txs cur =
        drain_unbound bh nw rest
          (setOp txs i j (.inscriptionRevealed { insc with
            inscription_number := cur.pick_next insc.curse_type.isSome bh nw,
            satpoint_post_inscription := UNBOUND_INSCRIPTION_SATPOINT ++ ":" ++
              toString (nextUnbound cur.unbound),
            ordinal_offset := (nextUnbound cur.unbound).toNat,
            unbound_sequence := some (nextUnbound cur.unbound) }))
          ((cur.increment insc.curse_type.isSome).increment_unbound).2) ∧
    (∀ (queue : List (Nat × Nat)) (txs : List SeqTx) (cur : SequenceCursor),
      queue.Nodup →
      (∀ e ∈ queue, ∃ d, opAt txs e.1 e.2 = some (.inscriptionRevealed d)) →
      ∀ (k : Nat) (ab : Nat × Nat), queue[k]? = some ab →
        ∃ d, opAt (drain_unbound bh nw queue txs cur).1 ab.1 ab.2 =
              some (.inscriptionRevealed d) ∧
          d.unbound_sequence = some (nextUnboundAfter cur.unbound k) ∧
          d.satpoint_post_inscription = UNBOUND_INSCRIPTION_SATPOINT ++ ":" ++
            toString (nextUnboundAfter cur.unbound k) ∧
          d.ordinal_offset = (nextUnboundAfter cur.unbound k).toNat) := by
  refine ⟨?_, ?_, ?_, drain_unbound_assigns bh nw⟩
  · intro tx tx_index op_index st subindex insc tr hlook hdest
    simp only [update_reveal, hlook, hdest]
    refine ⟨_, rfl, ?_⟩
    simp [charm_isSet_set]
  · intro txs cursor reins txs2 st hupd
    simp only [update_block_inscriptions, hupd]
  · intro i j rest txs cur insc hop
    simp only [drain_unbound, hop, increment_unbound_fst,
      cursor_increment_unbound_eq]

/-- C3: a non-cursed reveal whose satoshi already carries a blessed
inscription (in the reinscriptions map seeded from the ordinals DB and
augmented as the block is processed) is forced cursed: its number is
re-picked as cursed, its curse type is overridden to Reinscription, and the
Reinscription charm is set; and every blessed (non-cursed, non-fee) reveal
inserts its satoshi into the reinscriptions map, so later reveals in the
same block (including chained ones) are detected. -/
theorem reinscription_forced_curse_spec (dec : ScriptDecoder)
    (lookup : TraversalLookup) (bh : Nat) (nw : Network) :
    (∀ (tx : SeqTx) (tx_index op_index : Nat) (st : SeqState) (subindex : Nat)
        (insc : RevealData) (tr : TraversalResult) (prev_id : String),
      insc.curse_type = none →
      lookup tx.tx.txid (resolveRevealTarget tx insc).1
          (resolveRevealTarget tx insc).2 = some tr →
      rmLookup st.reinscriptions tr.ordinal_number = some prev_id →
      ∃ insc2 st2, update_reveal dec lookup bh nw tx tx_index op_index st subindex insc =
          .ok (insc2, st2, subindex + 1) ∧
        insc2.curse_type = some .reinscription ∧
        Charm.isSet .reinscription insc2.charms = true ∧
        insc2.inscription_number = st.cursor.pick_next true bh nw) ∧
    (∀ (tx : SeqTx) (tx_index op_index : Nat) (st : SeqState) (subindex : Nat)
        (insc : RevealData) (tr : TraversalResult),
      insc.curse_type = none →
      lookup tx.tx.txid (resolveRevealTarget tx insc).1
          (resolveRevealTarget tx insc).2 = some tr →
      rmLookup st.reinscriptions tr.ordinal_number = none →
      (compute_satpoint_post_transfer dec tx.tx (resolveRevealTarget tx insc).1
          (resolveRevealTarget tx insc).2).1 ≠ .spentInFees →
      ∃ insc2 st2, update_reveal dec lookup bh nw tx tx_index op_index st subindex insc =
          .ok (insc2, st2, subindex + 1) ∧
        st2.reinscriptions =
          rmInsert st.reinscriptions tr.ordinal_number tr.inscription_id ∧
        st2.cursor = st.cursor.increment false) := by
  constructor
  · intro tx tx_index op_index st subindex insc tr prev_id hcurse hlook hrm
    simp only [update_reveal, hlook, hcurse, hrm, Option.isSome_some,
      Option.isSome_none, Bool.not_false, Bool.true_and, Bool.false_or,
      if_true]
    rcases hres : (compute_satpoint_post_transfer dec tx.tx
        (resolveRevealTarget tx insc).1 (resolveRevealTarget tx insc).2).1
      with addr | scr | _
    all_goals simp only [hres]
    all_goals by_cases hj : get_jubilee_block_height nw ≤ bh
    all_goals simp only [hj, if_true, if_false]
    all_goals exact ⟨_, _, rfl, rfl,
      by simp [apply_ite (Charm.isSet Charm.reinscription), charm_isSet_set,
        charm_isSet_or], rfl⟩
  · intro tx tx_index op_index st subindex insc tr hcurse hlook hrm hdest
    simp only [update_reveal, hlook, hcurse, hrm, Option.isSome_some,
      Option.isSome_none, Bool.not_false, Bool.and_false, Bool.or_false,
      if_false]
    rcases hres : (compute_satpoint_post_transfer dec tx.tx
        (resolveRevealTarget tx insc).1 (resolveRevealTarget tx insc).2).1
      with addr | scr | _
    · simp only [hres]
      exact ⟨_, _, rfl, rfl, rfl⟩
    · simp only [hres]
      exact ⟨_, _, rfl, rfl, rfl⟩
    · exact absurd hres hdest

/-- C4: for every reveal, exactly one of the Cursed or Vindicated charms is
set when the inscription ends up cursed (by its own curse type or by forced
reinscription), chosen by the block height against the network jubilee
height (mainnet 824544, testnet 2544192, signet 175392, regtest 110):
Vindicated at or above the jubilee height, Cursed below; a reveal that is
not cursed receives neither charm. -/
theorem cursed_vindicated_charms_spec (dec : ScriptDecoder)
    (lookup : TraversalLookup) (bh : Nat) (nw : Network) :
    (get_jubilee_block_height .bitcoin = 824544 ∧
     get_jubilee_block_height .testnet = 2544192 ∧
     get_jubilee_block_height .signet = 175392 ∧
     get_jubilee_block_height .regtest = 110) ∧
    (∀ (tx : SeqTx) (tx_index op_index : Nat) (st : SeqState) (subindex : Nat)
        (insc : RevealData) (tr : TraversalResult),
      lookup tx.tx.txid (resolveRevealTarget tx insc).1
          (resolveRevealTarget tx insc).2 = some tr →
      insc.charms = 0 →
      ∃ insc2 st2, update_reveal dec lookup bh nw tx tx_index op_index st subindex insc =
          .ok (insc2, st2, subindex + 1) ∧
        ((insc.curse_type.isSome ||
            (rmLookup st.reinscriptions tr.ordinal_number).isSome) = true →
          (get_jubilee_block_height nw ≤ bh →
            Charm.isSet .vindicated insc2.charms = true ∧
            Charm.isSet .cursed insc2.charms = false) ∧
          (bh < get_jubilee_block_height nw →
            Charm.isSet .cursed insc2.charms = true ∧
            Charm.isSet .vindicated insc2.charms = false)) ∧
        ((insc.curse_type.isSome ||
            (rmLookup st.reinscriptions tr.ordinal_number).isSome) = false →
          Charm.isSet .cursed insc2.charms = false ∧
          Charm.isSet .vindicated insc2.charms = false)) := by
  refine ⟨⟨rfl, rfl, rfl, rfl⟩, ?_⟩
  intro tx tx_index op_index st subindex insc tr hlook hch0
  cases hc0 : insc.curse_type with
  | some ct =>
    simp only [update_reveal, hlook, hc0, Option.isSome_some, Bool.not_true,
      Bool.false_and, Bool.or_false, if_false, Bool.true_or]
    rcases hres : (compute_satpoint_post_transfer dec tx.tx
        (resolveRevealTarget tx insc).1 (resolveRevealTarget tx insc).2).1
      with addr | scr | _
    all_goals simp only [hres]
    all_goals by_cases hj : get_jubilee_block_height nw ≤ bh
    all_goals simp only [hj, if_true, if_false]
    all_goals refine ⟨_, _, rfl, fun _ => ⟨fun hj2 => ?_, fun hj2 => ?_⟩,
      fun hcf => absurd hcf (by simp)⟩
    all_goals try exact hj2.elim
    all_goals try exact absurd hj2 (by omega)
    all_goals constructor
    all_goals
      simp [apply_ite (Charm.isSet Charm.cursed),
        apply_ite (Charm.isSet Charm.vindicated), charm_isSet_set,
        charm_isSet_or, charm_isSet_zero, hch0,
        sat_charms_cursed_free, sat_charms_vindicated_free]
  | none =>
    cases hrm : rmLookup st.reinscriptions tr.ordinal_number with
    | some prev_id =>
      simp only [update_reveal, hlook, hc0, hrm, Option.isSome_some,
        Option.isSome_none, Bool.not_false, Bool.true_and, Bool.false_or,
        if_true]
      rcases hres : (compute_satpoint_post_transfer dec tx.tx
          (resolveRevealTarget tx insc).1 (resolveRevealTarget tx insc).2).1
        with addr | scr | _
      all_goals simp only [hres]
      all_goals by_cases hj : get_jubilee_block_height nw ≤ bh
      all_goals simp only [hj, if_true, if_false]
      all_goals refine ⟨_, _, rfl, fun _ => ⟨fun hj2 => ?_, fun hj2 => ?_⟩,
        fun hcf => absurd hcf (by simp)⟩
      all_goals try exact hj2.elim
      all_goals try exact absurd hj2 (by omega)
      all_goals constructor
      all_goals
        simp [apply_ite (Charm.isSet Charm.cursed),
          apply_ite (Charm.isSet Charm.vindicated), charm_isSet_set,
          charm_isSet_or, charm_isSet_zero, hch0,
          sat_charms_cursed_free, sat_charms_vindicated_free]
    | none =>
      simp only [update_reveal, hlook, hc0, hrm, Option.isSome_none,
        Bool.not_false, Bool.and_false, Bool.false_or, Bool.or_false,
        if_false]
      rcases hres : (compute_satpoint_post_transfer dec tx.tx
          (resolveRevealTarget tx insc).1 (resolveRevealTarget tx insc).2).1
        with addr | scr | _
      all_goals simp only [hres]
      all_goals refine ⟨_, _, rfl, fun hcf => absurd hcf (by simp),
        fun _ => ⟨?_, ?_⟩⟩
      all_goals
        simp [apply_ite (Charm.isSet Charm.cursed),
          apply_ite (Charm.isSet Charm.vindicated), charm_isSet_set,
          charm_isSet_or, charm_isSet_zero, hch0,
          sat_charms_cursed_free, sat_charms_vindicated_free]

/-- Witness for C2: a reveal whose pointer (5000) overshoots the single
2000-sat output is queued unbound, and draining a one-entry queue rewrites
the reveal with unbound sequence 0 and the sentinel satpoint. -/
theorem unbound_inscriptions_spec_witness :
    (seqLookup0 seqTx0.tx.txid (resolveRevealTarget seqTx0 seqInscFee).1
        (resolveRevealTarget seqTx0 seqInscFee).2 = some seqTr0) ∧
    ((compute_satpoint_post_transfer seqDec0 seqTx0.tx
        (resolveRevealTarget seqTx0 seqInscFee).1
        (resolveRevealTarget seqTx0 seqInscFee).2).1 = .spentInFees) ∧
    (∃ insc2, update_reveal seqDec0 seqLookup0 840000 .bitcoin seqTx0 0 0
          seqSt0 0 seqInscFee =
        .ok (insc2,
          { seqSt0 with sats_overflows := seqSt0.sats_overflows ++ [(0, 0)] },
          0 + 1) ∧
      Charm.isSet .unbound insc2.charms = true) ∧
    (seqBlockUpd = .ok (seqBlockUpdRes.1, seqBlockUpdRes.2) ∧
     update_block_inscriptions seqDec0 seqLookup0 840000 .bitcoin [seqTxOut0]
         seqCursor0 [] =
       .ok (drain_unbound 840000 .bitcoin seqBlockUpdRes.2.sats_overflows
         seqBlockUpdRes.1 seqBlockUpdRes.2.cursor)) ∧
    (drain_unbound 840000 .bitcoin [(0, 0)] [seqTx0] seqCursor0 =
      drain_unbound 840000 .bitcoin []
        (setOp [seqTx0] 0 0 (.inscriptionRevealed { seqInscFee with
          inscription_number :=
            seqCursor0.pick_next seqInscFee.curse_type.isSome 840000 .bitcoin,
          satpoint_post_inscription := UNBOUND_INSCRIPTION_SATPOINT ++ ":" ++
            toString (nextUnbound seqCursor0.unbound),
          ordinal_offset := (nextUnbound seqCursor0.unbound).toNat,
          unbound_sequence := some (nextUnbound seqCursor0.unbound) }))
        ((seqCursor0.increment seqInscFee.curse_type.isSome).increment_unbound).2) ∧
    (∃ d, opAt (drain_unbound 840000 .bitcoin [(0, 0)] [seqTx0] seqCursor0).1
          0 0 = some (.inscriptionRevealed d) ∧
      d.unbound_sequence = some (nextUnboundAfter seqCursor0.unbound 0) ∧
      d.satpoint_post_inscription = UNBOUND_INSCRIPTION_SATPOINT ++ ":" ++
        toString (nextUnboundAfter seqCursor0.unbound 0) ∧
      d.ordinal_offset = (nextUnboundAfter seqCursor0.unbound 0).toNat) := by
  refine ⟨rfl, rfl, ?_, ⟨rfl, ?_⟩, ?_, ?_⟩
  · exact (unbound_inscriptions_spec seqDec0 seqLookup0 840000 .bitcoin).1
      seqTx0 0 0 seqSt0 0 seqInscFee seqTr0 rfl rfl
  · exact (unbound_inscriptions_spec seqDec0 seqLookup0 840000 .bitcoin).2.1
      [seqTxOut0] seqCursor0 [] seqBlockUpdRes.1 seqBlockUpdRes.2 rfl
  · exact (unbound_inscriptions_spec seqDec0 seqLookup0 840000 .bitcoin).2.2.1
      0 0 [] [seqTx0] seqCursor0 seqInscFee rfl
  · exact (unbound_inscriptions_spec seqDec0 seqLookup0 840000 .bitcoin).2.2.2
      [(0, 0)] [seqTx0] seqCursor0 (by simp)
      (by intro e he; rw [List.mem_singleton.mp he]; exact ⟨seqInscFee, rfl⟩)
      0 (0, 0) rfl

/-- Witness for C3: against a state whose reinscriptions map holds ordinal 7
the blessed reveal is forced cursed as a Reinscription, and against a fresh
state the same blessed reveal records ordinal 7 in the map. -/
theorem reinscription_forced_curse_spec_witness :
    (seqInscBase.curse_type = none) ∧
    (seqLookup0 seqTxOut0.tx.txid (resolveRevealTarget seqTxOut0 seqInscBase).1
        (resolveRevealTarget seqTxOut0 seqInscBase).2 = some seqTr0) ∧
    (rmLookup seqStR.reinscriptions seqTr0.ordinal_number = some "oldid") ∧
    (∃ insc2 st2, update_reveal seqDec0 seqLookup0 840000 .bitcoin seqTxOut0
          0 0 seqStR 0 seqInscBase = .ok (insc2, st2, 0 + 1) ∧
      insc2.curse_type = some .reinscription ∧
      Charm.isSet .reinscription insc2.charms = true ∧
      insc2.inscription_number = seqStR.cursor.pick_next true 840000 .bitcoin) ∧
    (rmLookup seqSt0.reinscriptions seqTr0.ordinal_number = none) ∧
    ((compute_satpoint_post_transfer seqDec0 seqTxOut0.tx
        (resolveRevealTarget seqTxOut0 seqInscBase).1
        (resolveRevealTarget seqTxOut0 seqInscBase).2).1 ≠ .spentInFees) ∧
    (∃ insc2 st2, update_reveal seqDec0 seqLookup0 840000 .bitcoin seqTxOut0
          0 0 seqSt0 0 seqInscBase = .ok (insc2, st2, 0 + 1) ∧
      st2.reinscriptions =
        rmInsert seqSt0.reinscriptions seqTr0.ordinal_number seqTr0.inscription_id ∧
      st2.cursor = seqSt0.cursor.increment false) := by
  have hne : (compute_satpoint_post_transfer seqDec0 seqTxOut0.tx
      (resolveRevealTarget seqTxOut0 seqInscBase).1
      (resolveRevealTarget seqTxOut0 seqInscBase).2).1 ≠ .spentInFees := by
    decide
  refine ⟨rfl, rfl, rfl, ?_, rfl, hne, ?_⟩
  · exact (reinscription_forced_curse_spec seqDec0 seqLookup0 840000 .bitcoin).1
      seqTxOut0 0 0 seqStR 0 seqInscBase seqTr0 "oldid" rfl rfl rfl
  · exact (reinscription_forced_curse_spec seqDec0 seqLookup0 840000 .bitcoin).2
      seqTxOut0 0 0 seqSt0 0 seqInscBase seqTr0 rfl rfl rfl hne

/-- Witness for C4: on regtest (jubilee height 110) at height 200 a
pointer-cursed reveal is vindicated, not cursed. -/
theorem cursed_vindicated_charms_spec_witness :
    (seqLookup0 seqTxCursed0.tx.txid
        (resolveRevealTarget seqTxCursed0 seqInscCursed).1
        (resolveRevealTarget seqTxCursed0 seqInscCursed).2 = some seqTr0) ∧
    (seqInscCursed.charms = 0) ∧
    (get_jubilee_block_height .regtest ≤ 200) ∧
    (∃ insc2 st2, update_reveal seqDec0 seqLookup0 200 .regtest seqTxCursed0
          0 0 seqSt0 0 seqInscCursed = .ok (insc2, st2, 0 + 1) ∧
      ((seqInscCursed.curse_type.isSome ||
          (rmLookup seqSt0.reinscriptions seqTr0.ordinal_number).isSome) = true →
        (get_jubilee_block_height .regtest ≤ 200 →
          Charm.isSet .vindicated insc2.charms = true ∧
          Charm.isSet .cursed insc2.charms = false) ∧
        (200 < get_jubilee_block_height .regtest →
          Charm.isSet .cursed insc2.charms = true ∧
          Charm.isSet .vindicated insc2.charms = false)) ∧
      ((seqInscCursed.curse_type.isSome ||
          (rmLookup seqSt0.reinscriptions seqTr0.ordinal_number).isSome) = false →
        Charm.isSet .cursed insc2.charms = false ∧
        Charm.isSet .vindicated insc2.charms = false)) :=
  ⟨rfl, rfl, by decide,
   (cursed_vindicated_charms_spec seqDec0 seqLookup0 200 .regtest).2
     seqTxCursed0 0 0 seqSt0 0 seqInscCursed seqTr0 rfl rfl⟩

/-- Witness for C8: the first iteration of the scenario applies the
push-back step to D2 whose parent C2 is unknown. -/
theorem zmq_runloop_reorg_spec_witness :
    zmqScenarioFetch "d2" = some zmqHdrD2 ∧
    zmqScenarioPad.canProcessHeader zmqHdrD2 = false ∧
    zmqDrainLoop zmqScenarioFetch 1 zmqScenarioPad ["d2"] [] =
      zmqDrainLoop zmqScenarioFetch 0 zmqScenarioPad ["c2", "d2"]
        [ZmqEmit.standardize "d2"] := by
  refine ⟨rfl, rfl, ?_⟩
  have h := zmq_runloop_reorg_spec.1 zmqScenarioFetch 0 zmqScenarioPad "d2" [] []
    zmqHdrD2 rfl rfl
  simpa [zmqHdrD2] using h

end Hord
